import Mathlib

/-!
# tiny_benchmark

A shallow embedding of `include/tiny_benchmark.h` (namespace `tiny_bench`) and the
properties of its stopwatch, sample log, table printer and `SECTION` bracket.

Modelling conventions.

* A `std::string` is a Lean `String`; `size()` is `String.length` (one Lean character stands for
  one `char`).
* `std::cout` is the text written so far, a `String` that only grows.
* The process-wide `g_measure_times` and `std::cout` are threaded explicitly as a `World`.
* `clock_t::now()` is an input: every call that reads the clock takes the reading as an argument,
  a tick count since the clock's epoch.
* A `std::chrono::duration` with an integral representation of at most 64 bits is its tick
  count together with its period `num/den` (seconds per tick) and the kind of its representation
  type (`Rep`). A cast computes in the common type of the standard, the signed or the unsigned
  64-bit integer; a product that leaves that type wraps around modulo `2 ^ 64`, which is what
  the compiled code does (for the signed type the standard leaves the overflow undefined).
* A duration with representation `double` is a `DoubleDuration`; its casts compute in binary64
  with every operation rounded to nearest, ties to even. `log_time` is a function template, and
  `log_time_binary64` is its instantiation at such a duration type.
* `std::size_t` arithmetic is arithmetic modulo `SIZE_MOD = 2 ^ 64`.
-/

namespace tiny_bench

/-! ## Durations and `duration_cast` -/

/-- The kind of the representation type `Rep` of an integral tick count. `int64` stands for every
integral type all of whose values fit in a signed 64-bit integer (the signed types of at most 64
bits and the unsigned ones of fewer): its common type with `intmax_t` is the signed 64-bit
integer. `uint64` is the unsigned 64-bit integer, whose common type with `intmax_t` is itself. -/
inductive Rep where
  | int64
  | uint64
deriving DecidableEq, Repr

/-- A `std::chrono::duration<Rep, std::ratio<num, den>>` with integral `Rep`: `count` ticks, each
`num/den` seconds long. The count is a value of its type: from `-2 ^ 63` to `2 ^ 63 - 1` for
`Rep.int64`, from `0` to `2 ^ 64 - 1` for `Rep.uint64`. The clock's duration type and the types
`nanoseconds`, `milliseconds` and `seconds` are of kind `Rep.int64`, the default. -/
structure Duration where
  count : Int
  num : Nat
  den : Nat
  rep : Rep := Rep.int64
deriving DecidableEq, Repr

/-- The value a signed 64-bit integer takes for the exact result `x`: `x` modulo `2 ^ 64`,
between `-2 ^ 63` and `2 ^ 63 - 1`. -/
def wrap_int64 (x : Int) : Int :=
  (x + 9223372036854775808) % 18446744073709551616 - 9223372036854775808

/-- The value an unsigned 64-bit integer takes for the exact result `x`: `x` modulo `2 ^ 64`. -/
def wrap_uint64 (x : Int) : Int := x % 18446744073709551616

/-- The numerator `CF::num` of the conversion factor `CF = (num/den) / (tnum/tden)` in lowest
terms. -/
def conversion_num (tnum tden : Nat) (d : Duration) : Nat :=
  d.num * tden / Nat.gcd (d.num * tden) (d.den * tnum)

/-- The denominator `CF::den` of the conversion factor in lowest terms. -/
def conversion_den (tnum tden : Nat) (d : Duration) : Nat :=
  d.den * tnum / Nat.gcd (d.num * tden) (d.den * tnum)

/-- The count of `std::chrono::duration_cast<duration<int64_t, std::ratio<tnum, tden>>>(d)`.
Following the standard, the count is multiplied by `CF::num` and/or divided by `CF::den` in the
common type `CR` of the two representation types and `intmax_t`, and the result is converted to
`int64_t`. The division is the integer division of C++, which truncates toward zero. For
`Rep.int64` the common type is the signed 64-bit integer, where only the product can leave the
range; for `Rep.uint64` it is the unsigned one, and the conversion of the result to `int64_t`
wraps as well. -/
def duration_cast (tnum tden : Nat) (d : Duration) : Int :=
  let cfNum := conversion_num tnum tden d
  let cfDen := conversion_den tnum tden d
  match d.rep with
  | Rep.int64 =>
    if cfNum = 1 ∧ cfDen = 1 then d.count
    else if cfDen = 1 then wrap_int64 (d.count * (cfNum : Int))
    else if cfNum = 1 then Int.tdiv d.count (cfDen : Int)
    else Int.tdiv (wrap_int64 (d.count * (cfNum : Int))) (cfDen : Int)
  | Rep.uint64 =>
    if cfNum = 1 ∧ cfDen = 1 then wrap_int64 d.count
    else if cfDen = 1 then wrap_int64 (wrap_uint64 (d.count * (cfNum : Int)))
    else if cfNum = 1 then wrap_int64 (Int.tdiv d.count (cfDen : Int))
    else wrap_int64 (Int.tdiv (wrap_uint64 (d.count * (cfNum : Int))) (cfDen : Int))

/-- Whether the cast of `d` to the period `tnum/tden` stays in range: the exact product
`count * CF::num` is a value of the common type, and the quotient a value of `int64_t`. -/
def cast_in_range (tnum tden : Nat) (d : Duration) : Bool :=
  match d.rep with
  | Rep.int64 =>
    decide (-9223372036854775808 ≤ d.count * (conversion_num tnum tden d : Int)
      ∧ d.count * (conversion_num tnum tden d : Int) < 9223372036854775808)
  | Rep.uint64 =>
    decide (0 ≤ d.count
      ∧ d.count * (conversion_num tnum tden d : Int) < 18446744073709551616
      ∧ Int.tdiv (d.count * (conversion_num tnum tden d : Int))
          (conversion_den tnum tden d : Int) < 9223372036854775808)

/-- The count of `duration_cast<std::chrono::nanoseconds>(d)`; the period is `1/1000000000`. -/
def to_nanoseconds (d : Duration) : Int := duration_cast 1 1000000000 d

/-- The count of `duration_cast<std::chrono::milliseconds>(d)`; the period is `1/1000`. -/
def to_milliseconds (d : Duration) : Int := duration_cast 1 1000 d

/-- The count of `duration_cast<std::chrono::seconds>(d)`; the period is `1/1`. -/
def to_seconds (d : Duration) : Int := duration_cast 1 1 d

/-- The length of `d` in seconds, as an exact rational number. -/
def Duration.inSeconds (d : Duration) : ℚ := (d.count : ℚ) * (d.num : ℚ) / (d.den : ℚ)

/-- Truncation of a rational toward zero: the floor of a non-negative number, the ceiling of a
negative one. -/
def truncToZero (q : ℚ) : Int := if 0 ≤ q then ⌊q⌋ else ⌈q⌉

/-! ## Durations with representation `double` -/

/-- A finite binary64 number, `mant * 2 ^ exp`. -/
structure Binary64 where
  mant : Int
  exp : Int
deriving DecidableEq, Repr

/-- The exact value of a binary64 number. -/
def Binary64.toRat (x : Binary64) : ℚ := (x.mant : ℚ) * (2 : ℚ) ^ x.exp

/-- The integer nearest to `a / b`, the even one of the two on a tie. -/
def round_half_even (a b : Nat) : Nat :=
  let q := a / b
  let r := a % b
  if 2 * r < b then q
  else if b < 2 * r then q + 1
  else if q % 2 = 0 then q else q + 1

/-- The number of binary digits of `n`; the fuel bounds the number of halvings. -/
def bit_length : Nat → Nat → Nat
  | 0, _ => 0
  | fuel + 1, n => if n = 0 then 0 else bit_length fuel (n / 2) + 1

/-- The integer `e` with `2 ^ e ≤ a / b < 2 ^ (e + 1)`, for positive `a` and `b`. -/
def floor_log2 (a b : Nat) : Int :=
  let e : Int := (bit_length a a : Int) - (bit_length b b : Int)
  if 0 ≤ e then (if b * 2 ^ e.toNat ≤ a then e else e - 1)
  else (if b ≤ a * 2 ^ (-e).toNat then e else e - 1)

/-- The binary64 number nearest to `a / b`, with its sign: 53 significant bits, ties to even.
The exponent range of the format is not modelled. -/
def round_binary64 (negative : Bool) (a b : Nat) : Binary64 :=
  if a = 0 then { mant := 0, exp := 0 }
  else
    let u := floor_log2 a b - 52
    let m := if 0 ≤ u then round_half_even a (b * 2 ^ u.toNat)
      else round_half_even (a * 2 ^ (-u).toNat) b
    { mant := if negative then -(m : Int) else (m : Int), exp := u }

/-- The conversion `static_cast<double>(k)` of an integer. -/
def Binary64.ofInt (k : Int) : Binary64 := round_binary64 (decide (k < 0)) k.natAbs 1

/-- The product `x * y` in binary64. -/
def Binary64.mul (x y : Binary64) : Binary64 :=
  let e := x.exp + y.exp
  let a := (x.mant * y.mant).natAbs
  if 0 ≤ e then round_binary64 (decide (x.mant * y.mant < 0)) (a * 2 ^ e.toNat) 1
  else round_binary64 (decide (x.mant * y.mant < 0)) a (2 ^ (-e).toNat)

/-- The quotient `x / y` in binary64, for `y` other than zero. -/
def Binary64.div (x y : Binary64) : Binary64 :=
  let e := x.exp - y.exp
  if 0 ≤ e then
    round_binary64 (decide (x.mant * y.mant < 0)) (x.mant.natAbs * 2 ^ e.toNat) y.mant.natAbs
  else
    round_binary64 (decide (x.mant * y.mant < 0)) x.mant.natAbs (y.mant.natAbs * 2 ^ (-e).toNat)

/-- The conversion `static_cast<int64_t>(x)`, which drops the fraction, for a value in the range
of `int64_t`. -/
def Binary64.toInt (x : Binary64) : Int :=
  if 0 ≤ x.exp then x.mant * 2 ^ x.exp.toNat else Int.tdiv x.mant (2 ^ (-x.exp).toNat)

/-- A `std::chrono::duration<double, std::ratio<num, den>>`. -/
structure DoubleDuration where
  count : Binary64
  num : Nat
  den : Nat
deriving DecidableEq, Repr

/-- The length of a `double` duration in seconds, as an exact rational number. -/
def DoubleDuration.inSeconds (d : DoubleDuration) : ℚ :=
  d.count.toRat * (d.num : ℚ) / (d.den : ℚ)

/-- The count of `duration_cast<duration<int64_t, std::ratio<tnum, tden>>>(d)` for a `double`
duration: the common type is `double`, so the count is multiplied by `CF::num` and/or divided
by `CF::den` in binary64, from left to right, and the result is converted to `int64_t`. -/
def duration_cast_binary64 (tnum tden : Nat) (d : DoubleDuration) : Int :=
  let g := Nat.gcd (d.num * tden) (d.den * tnum)
  let cfNum := d.num * tden / g
  let cfDen := d.den * tnum / g
  if cfNum = 1 ∧ cfDen = 1 then d.count.toInt
  else if cfDen = 1 then (d.count.mul (Binary64.ofInt cfNum)).toInt
  else if cfNum = 1 then (d.count.div (Binary64.ofInt cfDen)).toInt
  else ((d.count.mul (Binary64.ofInt cfNum)).div (Binary64.ofInt cfDen)).toInt

/-! ## Decimal text of an integer -/

/-- What `ss << n` leaves in an empty `std::stringstream` for an integer `n`: the decimal digits
of `n`, most significant first, after a `-` when `n` is negative. -/
def decimal (n : Int) : String :=
  match n with
  | Int.ofNat m => String.mk (Nat.toDigits 10 m)
  | Int.negSucc m => String.mk (Char.ofNat 45 :: Nat.toDigits 10 (m + 1))

/-- The value of a decimal digit character, if it is one. -/
def digitValue (c : Char) : Option Nat :=
  if 48 ≤ c.toNat ∧ c.toNat ≤ 57 then some (c.toNat - 48) else none

/-- Reads digits left to right onto an accumulator; `none` on a character that is no digit. -/
def parseDigits : Nat → List Char → Option Nat
  | acc, [] => some acc
  | acc, c :: cs =>
    match digitValue c with
    | some v => parseDigits (acc * 10 + v) cs
    | none => none

/-- Reads a non-empty string of decimal digits as a natural number. -/
def parseNat (cs : List Char) : Option Nat :=
  match cs with
  | [] => none
  | _ :: _ => parseDigits 0 cs

/-- Reads back a decimal integer: an optional leading `-`, then at least one digit. -/
def parseInt (s : String) : Option Int :=
  match s.data with
  | [] => none
  | c :: cs =>
    if c = Char.ofNat 45 then (parseNat cs).map (fun v => -(v : Int))
    else (parseNat (c :: cs)).map (fun v => (v : Int))

/-! ## The stopwatch -/

/-- The class `stopwatch`: two time points, as tick counts of the clock. -/
structure stopwatch where
  start_ : Int
  stop_ : Int
deriving DecidableEq, Repr

/-- The constructor `stopwatch(): start_(clock_t::now()), stop_(start_)`. -/
def stopwatch.create (now : Int) : stopwatch := { start_ := now, stop_ := now }

/-- The method `void start() { start_ = clock_t::now(); }`. -/
def stopwatch.start (sw : stopwatch) (now : Int) : stopwatch := { sw with start_ := now }

/-- The method `void stop() { stop_ = clock_t::now(); }`. -/
def stopwatch.stop (sw : stopwatch) (now : Int) : stopwatch := { sw with stop_ := now }

/-- The method `ticks() const { return stop_ - start_; }`, a duration in the clock's own period
`cnum/cden`. -/
def stopwatch.ticks (cnum cden : Nat) (sw : stopwatch) : Duration :=
  { count := sw.stop_ - sw.start_, num := cnum, den := cden }

/-- The helper `to_ticks<tick_t>() const { return duration_cast<tick_t>(ticks()); }` for a
target type `tick_t` with `int64_t` counts and period `tnum/tden`. -/
def stopwatch.to_ticks (tnum tden cnum cden : Nat) (sw : stopwatch) : Duration :=
  { count := duration_cast tnum tden (sw.ticks cnum cden), num := tnum, den := tden }

/-- The helper `to_ms() const { return to_ticks<std::chrono::milliseconds>(); }`. -/
def stopwatch.to_ms (cnum cden : Nat) (sw : stopwatch) : Duration :=
  sw.to_ticks 1 1000 cnum cden

/-- A call made on a stopwatch after its construction, with the clock reading it takes. -/
inductive Call where
  | start (now : Int)
  | stop (now : Int)
deriving DecidableEq, Repr

/-- One call applied to a stopwatch. -/
def stopwatch.step (sw : stopwatch) : Call → stopwatch
  | Call.start now => sw.start now
  | Call.stop now => sw.stop now

/-- A sequence of calls applied to a stopwatch, first call first. -/
def stopwatch.run (sw : stopwatch) (calls : List Call) : stopwatch :=
  calls.foldl stopwatch.step sw

/-- Whether a call is a `stop()`. -/
def Call.isStop : Call → Bool
  | Call.start _ => false
  | Call.stop _ => true

/-! ## The sample log and `log_time` -/

/-- One element of `g_measure_times`, a `std::tuple` of four strings; `getN` is `std::get<N>`. -/
structure Sample where
  get0 : String
  get1 : String
  get2 : String
  get3 : String
deriving DecidableEq, Repr

/-- The observable state: the global vector `g_measure_times` and the text written to
`std::cout`. -/
structure World where
  g_measure_times : List Sample
  cout : String
deriving DecidableEq, Repr

/-- The function `log_time(message, tick)`: a new element is put at the back of the vector and
its four members are assigned the nanosecond, millisecond and second counts of `tick`, each cast
from `tick` itself and written in decimal, and the message. -/
def log_time (message : String) (tick : Duration) (w : World) : World :=
  let entry : Sample :=
    { get0 := decimal (to_nanoseconds tick)
      get1 := decimal (to_milliseconds tick)
      get2 := decimal (to_seconds tick)
      get3 := message }
  { w with g_measure_times := w.g_measure_times ++ [entry] }

/-- The function `log_time(message, tick)` instantiated at a duration type with representation
`double`: the same statements as `log_time`, with the casts of a `double` duration. -/
def log_time_binary64 (message : String) (tick : DoubleDuration) (w : World) : World :=
  let entry : Sample :=
    { get0 := decimal (duration_cast_binary64 1 1000000000 tick)
      get1 := decimal (duration_cast_binary64 1 1000 tick)
      get2 := decimal (duration_cast_binary64 1 1 tick)
      get3 := message }
  { w with g_measure_times := w.g_measure_times ++ [entry] }

/-- The macro `STOP_MEASURE(msg)`, that is `sw_.stop(); tiny_bench::log_time(msg, sw_.ticks())`,
on the stopwatch `sw_` of the enclosing scope; `now` is the clock reading `stop()` takes. -/
def STOP_MEASURE (cnum cden : Nat) (msg : String) (now : Int) (st : stopwatch × World) :
    stopwatch × World :=
  let sw := st.1.stop now
  (sw, log_time msg (sw.ticks cnum cden) st.2)

/-- A sequence of `log_time` calls, first call first. -/
def log_times (calls : List (String × Duration)) (w : World) : World :=
  calls.foldl (fun acc c => log_time c.1 c.2 acc) w

/-! ## `pretty_print_log` -/

/-- The modulus of `std::size_t` arithmetic. -/
def SIZE_MOD : Nat := 2 ^ 64

/-- The array `headers`. -/
def headers : Sample :=
  { get0 := "time (ns)", get1 := "time (ms)", get2 := "time (s)", get3 := "message" }

/-- The array `longest`: one width for each of the first three columns. -/
structure Widths where
  w0 : Nat
  w1 : Nat
  w2 : Nat
deriving DecidableEq, Repr

/-- The body of the first loop: each width is raised to the size of the entry's member. -/
def longest_step (l : Widths) (entry : Sample) : Widths :=
  { w0 := max l.w0 entry.get0.length
    w1 := max l.w1 entry.get1.length
    w2 := max l.w2 entry.get2.length }

/-- The array `longest` after the first loop: it starts at the header sizes and the loop visits
the entries in order. -/
def longest (log : List Sample) : Widths :=
  log.foldl longest_step
    { w0 := headers.get0.length, w1 := headers.get1.length, w2 := headers.get2.length }

/-- The loop `while (rjust-- > 0) std::cout.put(' ');`. -/
def put_spaces : Nat → String → String
  | 0, out => out
  | rjust + 1, out => put_spaces rjust (out.push ' ')

/-- The lambda `sp_fill`: writes `str`, subtracts its size from `rjust` in `std::size_t`, that
is modulo `SIZE_MOD`, then writes that many spaces. -/
def sp_fill (str : String) (rjust : Nat) (out : String) : String :=
  let out := out ++ str
  let rjust := Int.toNat (((rjust : Int) - (str.length : Int)) % (SIZE_MOD : Int))
  put_spaces rjust out

/-- The body of the second loop, one table row: three padded members, each followed by `" | "`,
then the fourth member and a newline. -/
def print_row (l : Widths) (out : String) (entry : Sample) : String :=
  let out := sp_fill entry.get0 l.w0 out
  let out := out ++ " | "
  let out := sp_fill entry.get1 l.w1 out
  let out := out ++ " | "
  let out := sp_fill entry.get2 l.w2 out
  let out := out ++ " | "
  let out := out ++ entry.get3
  out.push '\n'

/-- The function `pretty_print_log`: the widths, the header row, one row for each entry in
order, then `g_measure_times.clear()`. -/
def pretty_print_log (w : World) : World :=
  let l := longest w.g_measure_times
  let out := sp_fill headers.get0 l.w0 w.cout
  let out := out ++ " | "
  let out := sp_fill headers.get1 l.w1 out
  let out := out ++ " | "
  let out := sp_fill headers.get2 l.w2 out
  let out := out ++ " | "
  let out := out ++ headers.get3
  let out := out.push '\n'
  let out := w.g_measure_times.foldl (print_row l) out
  { g_measure_times := [], cout := out }

/-! ## `measure_section_t` and the `SECTION` loop -/

/-- The constructor of `measure_section_t`: prints the opening line. -/
def measure_section_t.ctor (name : String) (w : World) : World :=
  { w with cout := w.cout ++ "--- BEGIN " ++ name ++ " ---\n" }

/-- The destructor of `measure_section_t`: prints and clears the log, then the closing line. -/
def measure_section_t.dtor (name : String) (w : World) : World :=
  let w := pretty_print_log w
  { w with cout := w.cout ++ "--- END " ++ name ++ " ---\n" }

/-- How the body of a loop finishes one iteration. -/
inductive Completion where
  | normal
  | continue_
  | break_
deriving DecidableEq, Repr

/-- The state of the `SECTION` loop: its variable `s`, which the body can see, and the world. -/
structure LoopState where
  s : Bool
  world : World
deriving DecidableEq, Repr

/-- A C++ `for (; cond; incr) body` loop from a given state. A `break` leaves the loop at once,
without the increment; `continue` and normal completion go on to the increment and the next
test. The fuel bounds the number of tests of the condition; `none` means it ran out. -/
def for_loop {σ : Type} (cond : σ → Bool) (incr : σ → σ) (body : σ → Completion × σ) :
    Nat → σ → Option σ
  | 0, _ => none
  | fuel + 1, st =>
    if cond st then
      match body st with
      | (Completion.break_, st1) => some st1
      | (_, st1) => for_loop cond incr body fuel (incr st1)
    else some st

/-- The increment expression of the `SECTION` loop, `s = false, measure_section_t(name)`: the
temporary is constructed and then destroyed at the end of the expression. -/
def SECTION_incr (name : String) (st : LoopState) : LoopState :=
  { s := false
    world := measure_section_t.dtor name (measure_section_t.ctor name st.world) }

/-- The statement `SECTION(name) body`, that is
`for (bool s = true; s; s = false, measure_section_t(name)) body`. -/
def SECTION (name : String) (body : LoopState → Completion × LoopState) (fuel : Nat)
    (w : World) : Option World :=
  (for_loop (fun st => st.s) (SECTION_incr name) body fuel { s := true, world := w }).map
    (fun st => st.world)

/-- A body that only records samples and then completes normally. -/
def recording_body (calls : List (String × Duration)) (st : LoopState) :
    Completion × LoopState :=
  (Completion.normal, { st with world := log_times calls st.world })

/-- A body that leaves the loop with `break` without doing anything else. -/
def breaking_body (st : LoopState) : Completion × LoopState :=
  (Completion.break_, st)

/-! ## The table as the specification describes it -/

/-- A run of `n` spaces. -/
def spaces (n : Nat) : String := String.mk (List.replicate n ' ')

/-- A column entry as the specification describes it: the string itself, then spaces up to the
column width. -/
def padded_field (str : String) (width : Nat) : String := str ++ spaces (width - str.length)

/-- A table row as the specification describes it: three padded fields, each followed by the
separator, then the fourth field unpadded and a newline. -/
def table_row (l : Widths) (e : Sample) : String :=
  padded_field e.get0 l.w0 ++ " | " ++ padded_field e.get1 l.w1 ++ " | "
    ++ padded_field e.get2 l.w2 ++ " | " ++ e.get3 ++ "\n"

/-- A column width as the specification describes it: the maximum of the header length and of
the lengths of the values. -/
def column_width (header : String) (values : List String) : Nat :=
  (values.map String.length).foldr max header.length

/-- The rows of a table, one after the other. -/
def join_rows : List String → String
  | [] => ""
  | r :: rs => r ++ join_rows rs

/-- The text of the table of a log: what `pretty_print_log` prints for it on an empty output. -/
def table_text (log : List Sample) : String :=
  (pretty_print_log { g_measure_times := log, cout := "" }).cout

/-! ## Concrete inputs -/

/-- A duration of 1.5 milliseconds in the past, counted in nanoseconds. -/
def negative_tick : Duration := { count := -1500000, num := 1, den := 1000000000 }

/-- A duration of 2.5 seconds, counted in ticks of 100 nanoseconds. -/
def positive_tick : Duration := { count := 25000000, num := 1, den := 10000000 }

/-- A log of two samples, with labels of different lengths and one long nanosecond field. -/
def two_samples : List Sample :=
  [ { get0 := "5000000000", get1 := "5000", get2 := "5", get3 := "x" },
    { get0 := "-1234567890123", get1 := "-1234567", get2 := "-1234",
      get3 := "a very long message" } ]

/-- A body that records one sample and then jumps to the increment with `continue`. -/
def continuing_body (st : LoopState) : Completion × LoopState :=
  (Completion.continue_, { st with world := log_time "work" positive_tick st.world })

/-! ## The stopwatch as the specification describes it -/

/-- The clock reading held as start value after a sequence of calls: the reading of the last
`start()`, or the given one when there is none. -/
def last_start (t0 : Int) : List Call → Int
  | [] => t0
  | Call.start now :: cs => last_start now cs
  | Call.stop _ :: cs => last_start t0 cs

/-- The clock reading a call takes. -/
def Call.reading : Call → Int
  | Call.start now => now
  | Call.stop now => now

/-- The clock reading of the last `stop()` of a sequence of calls, if there is one. -/
def last_stop : List Call → Option Int
  | [] => none
  | Call.start _ :: cs => last_stop cs
  | Call.stop now :: cs =>
    match last_stop cs with
    | some t => some t
    | none => some now

/-- The sample the specification expects `log_time` to add for a message and a duration. -/
def sample_of (c : String × Duration) : Sample :=
  { get0 := decimal (to_nanoseconds c.2)
    get1 := decimal (to_milliseconds c.2)
    get2 := decimal (to_seconds c.2)
    get3 := c.1 }

/-- A sequence of calls whose last `stop()` comes after its last `start()`. -/
def start_stop_calls : List Call :=
  [Call.start 250, Call.stop 300, Call.start 400, Call.stop 450, Call.stop 475]

/-- A duration of one nanosecond in the past. -/
def minus_one_nanosecond : Duration := { count := -1, num := 1, den := 1000000000 }

/-- The duration `std::chrono::seconds(10000000000)`, about 317 years. -/
def long_seconds : Duration := { count := 10000000000, num := 1, den := 1 }

/-- The largest duration with an unsigned 64-bit count of nanoseconds. -/
def unsigned_nanoseconds : Duration :=
  { count := 18446744073709551615, num := 1, den := 1000000000, rep := Rep.uint64 }

/-- The duration `std::chrono::duration<double>(1.025)`: the binary64 number nearest to 1.025 is
`4616189618054758 / 2 ^ 52`, a little below 1.025. -/
def double_seconds : DoubleDuration :=
  { count := { mant := 4616189618054758, exp := -52 }, num := 1, den := 1 }

/-- The empty log with nothing printed. -/
def empty_world : World := { g_measure_times := [], cout := "" }

/-! ## Truncating division and the exact value of a cast -/

/-- Division truncating toward zero by a positive number, through floor division. -/
theorem tdiv_of_pos (a b : Int) (hb : 0 < b) :
    Int.tdiv a b = if 0 ≤ a then a / b else -((-a) / b) := by
  split
  · next h => exact Int.tdiv_eq_ediv h (le_of_lt hb)
  · next h =>
    have h1 : Int.tdiv a b = -(Int.tdiv (-a) b) := by rw [Int.neg_tdiv, neg_neg]
    rw [h1, Int.tdiv_eq_ediv (by omega) (le_of_lt hb)]

/-- A common positive factor cancels in a truncating division. -/
theorem tdiv_mul_right_cancel (x b g : Int) (hb : 0 < b) (hg : 0 < g) :
    Int.tdiv (x * g) (b * g) = Int.tdiv x b := by
  rw [tdiv_of_pos _ _ (Int.mul_pos hb hg), tdiv_of_pos _ _ hb]
  have hx : 0 ≤ x * g ↔ 0 ≤ x := by
    constructor
    · intro h
      by_contra hneg
      have : x * g < 0 := Int.mul_neg_of_neg_of_pos (by omega) hg
      omega
    · intro h
      exact Int.mul_nonneg h (le_of_lt hg)
  by_cases h : 0 ≤ x
  · rw [if_pos (hx.mpr h), if_pos h, Int.mul_ediv_mul_of_pos_left _ _ hg]
  · rw [if_neg (fun h1 => h (hx.mp h1)), if_neg h, ← neg_mul,
      Int.mul_ediv_mul_of_pos_left _ _ hg]

/-- An exact result in the range of the signed 64-bit integer is kept as it is. -/
theorem wrap_int64_of_range (x : Int) (h1 : -9223372036854775808 ≤ x)
    (h2 : x < 9223372036854775808) : wrap_int64 x = x := by
  unfold wrap_int64
  omega

/-- An exact result in the range of the unsigned 64-bit integer is kept as it is. -/
theorem wrap_uint64_of_range (x : Int) (h1 : 0 ≤ x) (h2 : x < 18446744073709551616) :
    wrap_uint64 x = x := by
  unfold wrap_uint64
  omega

/-- A cast that stays in range is one truncating division of `count * CF::num` by `CF::den`. -/
theorem duration_cast_reduced (tnum tden : Nat) (d : Duration)
    (hr : cast_in_range tnum tden d = true) :
    duration_cast tnum tden d
      = Int.tdiv (d.count * (conversion_num tnum tden d : Int))
          (conversion_den tnum tden d : Int) := by
  unfold duration_cast
  unfold cast_in_range at hr
  simp only []
  generalize conversion_num tnum tden d = a at hr ⊢
  generalize conversion_den tnum tden d = b at hr ⊢
  cases hrep : d.rep with
  | int64 =>
    rw [hrep] at hr
    simp only [decide_eq_true_eq] at hr
    simp only []
    have hw := wrap_int64_of_range _ hr.1 hr.2
    split_ifs with h1 h2 h3
    · rw [h1.1, h1.2]; simp
    · rw [hw, h2]; simp
    · rw [h3]; simp
    · rw [hw]
  | uint64 =>
    rw [hrep] at hr
    simp only [decide_eq_true_eq] at hr
    simp only []
    obtain ⟨hc, hp, hq⟩ := hr
    have hp0 : 0 ≤ d.count * (a : Int) := Int.mul_nonneg hc (Int.ofNat_nonneg a)
    have hq0 : 0 ≤ Int.tdiv (d.count * (a : Int)) (b : Int) :=
      Int.tdiv_nonneg hp0 (Int.ofNat_nonneg b)
    have hu := wrap_uint64_of_range _ hp0 hp
    have hw := wrap_int64_of_range (Int.tdiv (d.count * (a : Int)) (b : Int)) (by omega) hq
    split_ifs with h1 h2 h3
    · rw [h1.1, h1.2] at hw
      simp only [Nat.cast_one, mul_one, Int.tdiv_one] at hw
      rw [h1.1, h1.2, hw]; simp
    · rw [h2] at hw
      simp only [Nat.cast_one, Int.tdiv_one] at hw
      rw [hu, hw, h2]; simp
    · rw [h3] at hw
      simp only [Nat.cast_one, mul_one] at hw
      rw [hw, h3]; simp
    · rw [hu, hw]

/-- The conversion factor in lowest terms gives the same truncating division as the factor
`(num * tden) / (den * tnum)` itself. -/
theorem tdiv_conversion (tnum tden : Nat) (d : Duration)
    (hnum : 0 < d.num) (hden : 0 < d.den) (htn : 0 < tnum) (htd : 0 < tden) :
    Int.tdiv (d.count * (conversion_num tnum tden d : Int)) (conversion_den tnum tden d : Int)
      = Int.tdiv (d.count * ((d.num * tden : Nat) : Int)) ((d.den * tnum : Nat) : Int) := by
  have hn : 0 < d.num * tden := Nat.mul_pos hnum htd
  have hm : 0 < d.den * tnum := Nat.mul_pos hden htn
  have hg : 0 < Nat.gcd (d.num * tden) (d.den * tnum) := Nat.gcd_pos_of_pos_left _ hn
  have ha : d.num * tden / Nat.gcd (d.num * tden) (d.den * tnum)
      * Nat.gcd (d.num * tden) (d.den * tnum) = d.num * tden :=
    Nat.div_mul_cancel (Nat.gcd_dvd_left _ _)
  have hb : d.den * tnum / Nat.gcd (d.num * tden) (d.den * tnum)
      * Nat.gcd (d.num * tden) (d.den * tnum) = d.den * tnum :=
    Nat.div_mul_cancel (Nat.gcd_dvd_right _ _)
  unfold conversion_num conversion_den
  generalize Nat.gcd (d.num * tden) (d.den * tnum) = g at hg ha hb
  generalize d.num * tden / g = a at ha
  generalize d.den * tnum / g = b at hb
  have hbpos : 0 < b := by
    rcases Nat.eq_zero_or_pos b with h0 | h0
    · rw [h0, Nat.zero_mul] at hb; omega
    · exact h0
  rw [← ha, ← hb]
  push_cast
  rw [← mul_assoc]
  exact (tdiv_mul_right_cancel _ _ _ (by exact_mod_cast hbpos) (by exact_mod_cast hg)).symm

/-- A cast that stays in range is one truncating division of `count * (num * tden)` by
`den * tnum`. -/
theorem duration_cast_eq_tdiv (tnum tden : Nat) (d : Duration)
    (hnum : 0 < d.num) (hden : 0 < d.den) (htn : 0 < tnum) (htd : 0 < tden)
    (hr : cast_in_range tnum tden d = true) :
    duration_cast tnum tden d
      = Int.tdiv (d.count * ((d.num * tden : Nat) : Int)) ((d.den * tnum : Nat) : Int) := by
  rw [duration_cast_reduced tnum tden d hr, tdiv_conversion tnum tden d hnum hden htn htd]

/-- Truncating an integer fraction with a positive denominator is the truncating division. -/
theorem truncToZero_div (a : Int) (b : Nat) (hb : 0 < b) :
    truncToZero ((a : ℚ) / (b : ℚ)) = Int.tdiv a (b : Int) := by
  have hbq : (0 : ℚ) < (b : ℚ) := by exact_mod_cast hb
  have hsign : (0 : ℚ) ≤ (a : ℚ) / (b : ℚ) ↔ 0 ≤ a := by
    rw [le_div_iff₀ hbq, zero_mul]
    exact_mod_cast Iff.rfl
  rw [tdiv_of_pos a b (by exact_mod_cast hb)]
  unfold truncToZero
  by_cases h : 0 ≤ a
  · rw [if_pos (hsign.mpr h), if_pos h]
    exact Rat.floor_intCast_div_natCast a b
  · rw [if_neg (fun h1 => h (hsign.mp h1)), if_neg h]
    have h2 : ⌈(a : ℚ) / (b : ℚ)⌉ = -⌊(((-a : Int) : ℚ)) / (b : ℚ)⌋ := by
      rw [Int.ceil_eq_iff]
      have := Int.floor_le ((((-a : Int) : ℚ)) / (b : ℚ))
      have := Int.lt_floor_add_one ((((-a : Int) : ℚ)) / (b : ℚ))
      push_cast at *
      rw [neg_div] at *
      constructor <;> linarith
    rw [h2, Rat.floor_intCast_div_natCast]

/-- The count of a cast that stays in range is the length of the duration, measured in the
target period, truncated toward zero. -/
theorem duration_cast_exact (tnum tden : Nat) (d : Duration)
    (hnum : 0 < d.num) (hden : 0 < d.den) (htn : 0 < tnum) (htd : 0 < tden)
    (hr : cast_in_range tnum tden d = true) :
    duration_cast tnum tden d = truncToZero (d.inSeconds * (tden : ℚ) / (tnum : ℚ)) := by
  rw [duration_cast_eq_tdiv tnum tden d hnum hden htn htd hr,
    ← truncToZero_div _ _ (Nat.mul_pos hden htn)]
  congr 1
  unfold Duration.inSeconds
  have h1 : (d.den : ℚ) ≠ 0 := by exact_mod_cast (Nat.pos_iff_ne_zero.mp hden)
  have h2 : (tnum : ℚ) ≠ 0 := by exact_mod_cast (Nat.pos_iff_ne_zero.mp htn)
  push_cast
  field_simp
  ring

/-! ## Reading a decimal text back -/

/-- The digit characters of the standard renderer are read back as their values. -/
theorem digitValue_digitChar (k : Nat) (hk : k < 10) : digitValue (Nat.digitChar k) = some k := by
  interval_cases k <;> rfl

/-- Reading the digits of `n` onto an accumulator shifts it and adds `n`. -/
theorem parseDigits_toDigitsCore (fuel : Nat) :
    ∀ (n : Nat) (ds : List Char), n < fuel →
      ∃ k, ∀ acc, parseDigits acc (Nat.toDigitsCore 10 fuel n ds)
        = parseDigits (acc * 10 ^ k + n) ds := by
  induction fuel with
  | zero => intro n ds h; omega
  | succ fuel ih =>
    intro n ds hn
    by_cases h0 : n / 10 = 0
    · refine ⟨1, fun acc => ?_⟩
      have hlt : n < 10 := by omega
      simp only [Nat.toDigitsCore, h0, if_true, parseDigits,
        digitValue_digitChar (n % 10) (Nat.mod_lt _ (by decide))]
      rw [Nat.mod_eq_of_lt hlt, pow_one]
    · obtain ⟨k, hk⟩ := ih (n / 10) (Nat.digitChar (n % 10) :: ds) (by omega)
      refine ⟨k + 1, fun acc => ?_⟩
      simp only [Nat.toDigitsCore, h0, if_false]
      rw [hk acc]
      simp only [parseDigits, digitValue_digitChar (n % 10) (Nat.mod_lt _ (by decide))]
      congr 1
      have := Nat.div_add_mod n 10
      rw [pow_succ]
      nlinarith [this]

/-- The rendering of a natural number starts with a digit. -/
theorem toDigitsCore_head (fuel : Nat) :
    ∀ (n : Nat) (ds : List Char), n < fuel →
      ∃ c cs, Nat.toDigitsCore 10 fuel n ds = c :: cs ∧ 48 ≤ c.toNat := by
  induction fuel with
  | zero => intro n ds h; omega
  | succ fuel ih =>
    intro n ds hn
    by_cases h0 : n / 10 = 0
    · refine ⟨Nat.digitChar (n % 10), ds, ?_, ?_⟩
      · simp only [Nat.toDigitsCore, h0, if_true]
      · have hv := digitValue_digitChar (n % 10) (Nat.mod_lt _ (by decide))
        unfold digitValue at hv
        split at hv
        · next h => exact h.1
        · exact absurd hv (by simp)
    · obtain ⟨c, cs, hc, h48⟩ := ih (n / 10) (Nat.digitChar (n % 10) :: ds) (by omega)
      exact ⟨c, cs, by simp only [Nat.toDigitsCore, h0, if_false]; exact hc, h48⟩

/-- The digits of a natural number read back as that number. -/
theorem parseNat_toDigits (m : Nat) : parseNat (Nat.toDigits 10 m) = some m := by
  obtain ⟨c, cs, hc, _⟩ := toDigitsCore_head (m + 1) m [] (Nat.lt_succ_self m)
  obtain ⟨k, hk⟩ := parseDigits_toDigitsCore (m + 1) m [] (Nat.lt_succ_self m)
  have h := hk 0
  unfold Nat.toDigits
  rw [hc] at h ⊢
  simp only [parseNat]
  rw [h]
  simp [parseDigits]

/-- Reading back the decimal text of an integer gives the integer. -/
theorem parseInt_decimal (n : Int) : parseInt (decimal n) = some n := by
  cases n with
  | ofNat m =>
    obtain ⟨c, cs, hc, h48⟩ := toDigitsCore_head (m + 1) m [] (Nat.lt_succ_self m)
    have hp := parseNat_toDigits m
    unfold Nat.toDigits at hp
    have hne : c ≠ Char.ofNat 45 := by
      intro h
      rw [h] at h48
      exact absurd h48 (by decide)
    simp only [decimal, parseInt, Nat.toDigits, hc, if_neg hne]
    rw [hc] at hp
    rw [hp]
    rfl
  | negSucc m =>
    simp only [decimal, parseInt, if_true, parseNat_toDigits]
    rfl

/-- Different integers have different decimal texts. -/
theorem decimal_injective (a b : Int) (h : decimal a = decimal b) : a = b := by
  have h1 := parseInt_decimal a
  rw [h, parseInt_decimal b] at h1
  exact (Option.some.inj h1).symm

/-! ## `log_time`: the stored fields -/

/-- The three counts that `log_time` renders, as single truncating divisions, when the three
casts stay in range. -/
theorem log_time_counts (d : Duration) (hnum : 0 < d.num) (hden : 0 < d.den)
    (h0 : cast_in_range 1 1000000000 d = true) (h1 : cast_in_range 1 1000 d = true)
    (h2 : cast_in_range 1 1 d = true) :
    to_nanoseconds d = Int.tdiv (d.count * (d.num : Int) * 1000000000) (d.den : Int) ∧
    to_milliseconds d = Int.tdiv (d.count * (d.num : Int) * 1000) (d.den : Int) ∧
    to_seconds d = Int.tdiv (d.count * (d.num : Int)) (d.den : Int) := by
  refine ⟨?_, ?_, ?_⟩
  · unfold to_nanoseconds
    rw [duration_cast_eq_tdiv 1 1000000000 d hnum hden (by decide) (by decide) h0]
    push_cast
    rw [mul_one, mul_assoc]
  · unfold to_milliseconds
    rw [duration_cast_eq_tdiv 1 1000 d hnum hden (by decide) (by decide) h1]
    push_cast
    rw [mul_one, mul_assoc]
  · unfold to_seconds
    rw [duration_cast_eq_tdiv 1 1 d hnum hden (by decide) (by decide) h2]
    push_cast
    rw [mul_one, mul_one]

/-- Truncation toward zero of a non-negative rational is its floor. -/
theorem truncToZero_of_nonneg (q : ℚ) (h : 0 ≤ q) : truncToZero q = ⌊q⌋ := by
  unfold truncToZero
  rw [if_pos h]

/-- A duration with a non-negative count has a non-negative length. -/
theorem inSeconds_nonneg (d : Duration) (h : 0 ≤ d.count) : 0 ≤ d.inSeconds := by
  unfold Duration.inSeconds
  have h1 : (0 : ℚ) ≤ (d.count : ℚ) := by exact_mod_cast h
  positivity

/-- The fields `log_time` stores for `duration<double>(1.025)`: the products of the count with
`1000000000` and with `1000`, rounded in binary64, then cut to integers. -/
theorem log_time_binary64_double_seconds :
    (log_time_binary64 "m" double_seconds empty_world).g_measure_times
      = [{ get0 := "1024999999", get1 := "1025", get2 := "1", get3 := "m" }] := by
  set_option maxRecDepth 100000 in decide

/-- C1, as stated, fails in four ways. At minus one nanosecond the stored fields are `-1`, `0`
and `0`, while the floor of the duration in milliseconds and in seconds is `-1`. At
`seconds(10000000000)` the product with `1000000000` leaves the signed 64-bit range: the
nanosecond field is `-8446744073709551616`, while the duration is `10000000000000000000`
nanoseconds. At `2 ^ 64 - 1` nanoseconds held in an unsigned 64-bit count the conversion to
`int64_t` stores `-1`. At `duration<double>(1.025)` the product with `1000` is rounded to `1025`
in binary64, while the duration is a little below 1025 milliseconds, with floor `1024`. -/
theorem log_time_floor_counterexample :
    ((log_time "m" minus_one_nanosecond empty_world).g_measure_times
        = [{ get0 := "-1", get1 := "0", get2 := "0", get3 := "m" }] ∧
      ⌊minus_one_nanosecond.inSeconds * 1000⌋ = -1 ∧
      ⌊minus_one_nanosecond.inSeconds⌋ = -1 ∧
      decimal (-1) ≠ "0") ∧
    ((log_time "m" long_seconds empty_world).g_measure_times
        = [{ get0 := "-8446744073709551616", get1 := "10000000000000",
             get2 := "10000000000", get3 := "m" }] ∧
      ⌊long_seconds.inSeconds * 1000000000⌋ = 10000000000000000000 ∧
      decimal 10000000000000000000 ≠ "-8446744073709551616") ∧
    ((log_time "m" unsigned_nanoseconds empty_world).g_measure_times
        = [{ get0 := "-1", get1 := "18446744073709", get2 := "18446744073", get3 := "m" }] ∧
      ⌊unsigned_nanoseconds.inSeconds * 1000000000⌋ = 18446744073709551615 ∧
      decimal 18446744073709551615 ≠ "-1") ∧
    ((log_time_binary64 "m" double_seconds empty_world).g_measure_times
        = [{ get0 := "1024999999", get1 := "1025", get2 := "1", get3 := "m" }] ∧
      ⌊double_seconds.inSeconds * 1000⌋ = 1024 ∧
      decimal 1024 ≠ "1025") := by
  have f1 : ⌊minus_one_nanosecond.inSeconds * 1000⌋ = -1 := by
    rw [Int.floor_eq_iff]
    norm_num [Duration.inSeconds, minus_one_nanosecond]
  have f2 : ⌊minus_one_nanosecond.inSeconds⌋ = -1 := by
    rw [Int.floor_eq_iff]
    norm_num [Duration.inSeconds, minus_one_nanosecond]
  have f3 : ⌊long_seconds.inSeconds * 1000000000⌋ = 10000000000000000000 := by
    rw [Int.floor_eq_iff]
    norm_num [Duration.inSeconds, long_seconds]
  have f4 : ⌊unsigned_nanoseconds.inSeconds * 1000000000⌋ = 18446744073709551615 := by
    rw [Int.floor_eq_iff]
    norm_num [Duration.inSeconds, unsigned_nanoseconds]
  have f5 : ⌊double_seconds.inSeconds * 1000⌋ = 1024 := by
    rw [Int.floor_eq_iff]
    norm_num [DoubleDuration.inSeconds, Binary64.toRat, double_seconds]
  exact ⟨⟨by decide, f1, f2, by decide⟩, ⟨by decide, f3, by decide⟩,
    ⟨by decide, f4, by decide⟩, ⟨log_time_binary64_double_seconds, f5, by decide⟩⟩

/-- C1 (amended): for a duration with an integral count of at most 64 bits whose casts to
nanoseconds, to milliseconds and to seconds stay in range, the sample appended by `log_time` has
as its first three fields the decimal texts of the duration measured in nanoseconds, in
milliseconds and in seconds, each truncated toward zero from the duration itself; they read back
as these integers, and for a duration that is not negative they are the floors. -/
theorem log_time_fields_truncate (message : String) (d : Duration) (w : World)
    (hnum : 0 < d.num) (hden : 0 < d.den)
    (h0 : cast_in_range 1 1000000000 d = true) (h1 : cast_in_range 1 1000 d = true)
    (h2 : cast_in_range 1 1 d = true) :
    ∃ e : Sample,
      (log_time message d w).g_measure_times = w.g_measure_times ++ [e] ∧
      e.get0 = decimal (truncToZero (d.inSeconds * 1000000000)) ∧
      e.get1 = decimal (truncToZero (d.inSeconds * 1000)) ∧
      e.get2 = decimal (truncToZero d.inSeconds) ∧
      parseInt e.get0 = some (truncToZero (d.inSeconds * 1000000000)) ∧
      parseInt e.get1 = some (truncToZero (d.inSeconds * 1000)) ∧
      parseInt e.get2 = some (truncToZero d.inSeconds) ∧
      (0 ≤ d.count →
        truncToZero (d.inSeconds * 1000000000) = ⌊d.inSeconds * 1000000000⌋ ∧
        truncToZero (d.inSeconds * 1000) = ⌊d.inSeconds * 1000⌋ ∧
        truncToZero d.inSeconds = ⌊d.inSeconds⌋) := by
  have e0 : to_nanoseconds d = truncToZero (d.inSeconds * 1000000000) := by
    unfold to_nanoseconds
    rw [duration_cast_exact 1 1000000000 d hnum hden (by decide) (by decide) h0]
    norm_num
  have e1 : to_milliseconds d = truncToZero (d.inSeconds * 1000) := by
    unfold to_milliseconds
    rw [duration_cast_exact 1 1000 d hnum hden (by decide) (by decide) h1]
    norm_num
  have e2 : to_seconds d = truncToZero d.inSeconds := by
    unfold to_seconds
    rw [duration_cast_exact 1 1 d hnum hden (by decide) (by decide) h2]
    norm_num
  refine ⟨_, rfl, ?_, ?_, ?_, ?_, ?_, ?_, ?_⟩
  · simp only [e0]
  · simp only [e1]
  · simp only [e2]
  · simp only [e0, parseInt_decimal]
  · simp only [e1, parseInt_decimal]
  · simp only [e2, parseInt_decimal]
  · intro hc
    have hq := inSeconds_nonneg d hc
    exact ⟨truncToZero_of_nonneg _ (by positivity), truncToZero_of_nonneg _ (by positivity),
      truncToZero_of_nonneg _ hq⟩

/-- C1 (amended) at a negative duration of 1.5 milliseconds. -/
theorem log_time_fields_truncate_witness :
    ∃ e : Sample,
      (log_time "m" negative_tick { g_measure_times := [], cout := "" }).g_measure_times
        = [] ++ [e] ∧
      e.get0 = decimal (truncToZero (negative_tick.inSeconds * 1000000000)) ∧
      e.get1 = decimal (truncToZero (negative_tick.inSeconds * 1000)) ∧
      e.get2 = decimal (truncToZero negative_tick.inSeconds) ∧
      parseInt e.get0 = some (truncToZero (negative_tick.inSeconds * 1000000000)) ∧
      parseInt e.get1 = some (truncToZero (negative_tick.inSeconds * 1000)) ∧
      parseInt e.get2 = some (truncToZero negative_tick.inSeconds) ∧
      (0 ≤ negative_tick.count →
        truncToZero (negative_tick.inSeconds * 1000000000)
          = ⌊negative_tick.inSeconds * 1000000000⌋ ∧
        truncToZero (negative_tick.inSeconds * 1000) = ⌊negative_tick.inSeconds * 1000⌋ ∧
        truncToZero negative_tick.inSeconds = ⌊negative_tick.inSeconds⌋) :=
  log_time_fields_truncate "m" negative_tick { g_measure_times := [], cout := "" }
    (by decide) (by decide) (by decide) (by decide) (by decide)

/-! ## `log_time`: order of the stored counts -/

/-- Scaling after a truncating division of a non-negative number loses at least as much as
scaling before it. -/
theorem tdiv_mul_le_of_nonneg (a b k : Int) (ha : 0 ≤ a) (hb : 0 < b) (hk : 0 ≤ k) :
    Int.tdiv a b * k ≤ Int.tdiv (a * k) b := by
  rw [Int.tdiv_eq_ediv ha (le_of_lt hb), Int.tdiv_eq_ediv (Int.mul_nonneg ha hk) (le_of_lt hb)]
  apply Int.le_ediv_of_mul_le hb
  have h := Int.ediv_mul_le a (Int.ne_of_gt hb)
  calc a / b * k * b = a / b * b * k := by ring
    _ ≤ a * k := Int.mul_le_mul_of_nonneg_right h hk

/-- For a number that is not positive the order is the other way round. -/
theorem le_tdiv_mul_of_nonpos (a b k : Int) (ha : a ≤ 0) (hb : 0 < b) (hk : 0 ≤ k) :
    Int.tdiv (a * k) b ≤ Int.tdiv a b * k := by
  have h := tdiv_mul_le_of_nonneg (-a) b k (by omega) hb hk
  rw [Int.neg_tdiv, neg_mul, neg_mul, Int.neg_tdiv] at h
  omega

/-- C8, as stated, fails in four ways. At minus one nanosecond the stored integers are
`ns = -1` and `ms = 0`. At `seconds(10000000000)`, which is not negative, the product with
`1000000000` leaves the signed 64-bit range and `ns = -8446744073709551616` with
`ms = 10000000000000`. At `2 ^ 64 - 1` nanoseconds held in an unsigned 64-bit count the
conversion to `int64_t` gives `ns = -1` with `ms = 18446744073709`. At `duration<double>(1.025)`
the binary64 products give `ns = 1024999999` and `ms = 1025`. In each case
`ns ≥ ms * 1000000` is false. -/
theorem log_time_order_counterexample :
    ((log_time "m" minus_one_nanosecond empty_world).g_measure_times
        = [{ get0 := "-1", get1 := "0", get2 := "0", get3 := "m" }] ∧
      parseInt "-1" = some (-1) ∧ parseInt "0" = some 0 ∧
      ¬ ((-1 : Int) ≥ 0 * 1000000)) ∧
    ((log_time "m" long_seconds empty_world).g_measure_times
        = [{ get0 := "-8446744073709551616", get1 := "10000000000000",
             get2 := "10000000000", get3 := "m" }] ∧
      0 ≤ long_seconds.count ∧
      parseInt "-8446744073709551616" = some (-8446744073709551616) ∧
      parseInt "10000000000000" = some 10000000000000 ∧
      ¬ ((-8446744073709551616 : Int) ≥ 10000000000000 * 1000000)) ∧
    ((log_time "m" unsigned_nanoseconds empty_world).g_measure_times
        = [{ get0 := "-1", get1 := "18446744073709", get2 := "18446744073", get3 := "m" }] ∧
      0 ≤ unsigned_nanoseconds.count ∧
      parseInt "18446744073709" = some 18446744073709 ∧
      ¬ ((-1 : Int) ≥ 18446744073709 * 1000000)) ∧
    ((log_time_binary64 "m" double_seconds empty_world).g_measure_times
        = [{ get0 := "1024999999", get1 := "1025", get2 := "1", get3 := "m" }] ∧
      0 ≤ double_seconds.inSeconds ∧
      parseInt "1024999999" = some 1024999999 ∧ parseInt "1025" = some 1025 ∧
      ¬ ((1024999999 : Int) ≥ 1025 * 1000000)) := by
  have hpos : 0 ≤ double_seconds.inSeconds := by
    norm_num [DoubleDuration.inSeconds, Binary64.toRat, double_seconds]
  exact ⟨⟨by decide, by decide, by decide, by decide⟩,
    ⟨by decide, by decide, by decide, by decide, by decide⟩,
    ⟨by decide, by decide, by decide, by decide⟩,
    ⟨log_time_binary64_double_seconds, hpos, by decide, by decide, by decide⟩⟩

/-- C8 (amended): for a duration with an integral count of at most 64 bits whose casts to
nanoseconds, to milliseconds and to seconds stay in range, the integers `ns`, `ms` and `s`
stored by `log_time` satisfy `ns ≥ ms * 1000000 ≥ s * 1000000000` when the duration is not
negative, and `ns ≤ ms * 1000000 ≤ s * 1000000000` when it is not positive. -/
theorem log_time_fields_ordered (message : String) (d : Duration) (w : World)
    (hnum : 0 < d.num) (hden : 0 < d.den)
    (h0 : cast_in_range 1 1000000000 d = true) (h1 : cast_in_range 1 1000 d = true)
    (h2 : cast_in_range 1 1 d = true) :
    ∃ (e : Sample) (ns ms s : Int),
      (log_time message d w).g_measure_times = w.g_measure_times ++ [e] ∧
      parseInt e.get0 = some ns ∧ parseInt e.get1 = some ms ∧ parseInt e.get2 = some s ∧
      (0 ≤ d.count → ns ≥ ms * 1000000 ∧ ms * 1000000 ≥ s * 1000000000) ∧
      (d.count ≤ 0 → ns ≤ ms * 1000000 ∧ ms * 1000000 ≤ s * 1000000000) := by
  obtain ⟨h0, h1, h2⟩ := log_time_counts d hnum hden h0 h1 h2
  have hb : (0 : Int) < (d.den : Int) := by exact_mod_cast hden
  have hn : (0 : Int) ≤ (d.num : Int) := Int.ofNat_nonneg _
  refine ⟨_, to_nanoseconds d, to_milliseconds d, to_seconds d, rfl,
    parseInt_decimal _, parseInt_decimal _, parseInt_decimal _, ?_, ?_⟩
  · intro hc
    have hA : 0 ≤ d.count * (d.num : Int) := Int.mul_nonneg hc hn
    have k1 := tdiv_mul_le_of_nonneg (d.count * (d.num : Int) * 1000) d.den 1000000
      (Int.mul_nonneg hA (by decide)) hb (by decide)
    have k2 := tdiv_mul_le_of_nonneg (d.count * (d.num : Int)) d.den 1000 hA hb (by decide)
    have e : d.count * (d.num : Int) * 1000 * 1000000 = d.count * (d.num : Int) * 1000000000 := by
      ring
    rw [e] at k1
    rw [h0, h1, h2]
    constructor
    · exact k1
    · omega
  · intro hc
    have hA : d.count * (d.num : Int) ≤ 0 := Int.mul_nonpos_of_nonpos_of_nonneg hc hn
    have k1 := le_tdiv_mul_of_nonpos (d.count * (d.num : Int) * 1000) d.den 1000000
      (Int.mul_nonpos_of_nonpos_of_nonneg hA (by decide)) hb (by decide)
    have k2 := le_tdiv_mul_of_nonpos (d.count * (d.num : Int)) d.den 1000 hA hb (by decide)
    have e : d.count * (d.num : Int) * 1000 * 1000000 = d.count * (d.num : Int) * 1000000000 := by
      ring
    rw [e] at k1
    rw [h0, h1, h2]
    constructor
    · exact k1
    · omega

/-- C8 (amended) at a duration of 2.5 seconds counted in ticks of 100 nanoseconds. -/
theorem log_time_fields_ordered_witness :
    ∃ (e : Sample) (ns ms s : Int),
      (log_time "m" positive_tick { g_measure_times := [], cout := "" }).g_measure_times
        = [] ++ [e] ∧
      parseInt e.get0 = some ns ∧ parseInt e.get1 = some ms ∧ parseInt e.get2 = some s ∧
      (0 ≤ positive_tick.count → ns ≥ ms * 1000000 ∧ ms * 1000000 ≥ s * 1000000000) ∧
      (positive_tick.count ≤ 0 → ns ≤ ms * 1000000 ∧ ms * 1000000 ≤ s * 1000000000) :=
  log_time_fields_ordered "m" positive_tick { g_measure_times := [], cout := "" }
    (by decide) (by decide) (by decide) (by decide) (by decide)

/-! ## `log_time`: effect on the log -/

/-- C9: `log_time` is total and leaves the log equal to the old log followed by exactly one new
sample whose fourth field is the message verbatim; the old samples keep their positions and
values, and nothing is printed. -/
theorem log_time_appends (message : String) (d : Duration) (w : World) :
    ∃ e : Sample,
      (log_time message d w).g_measure_times = w.g_measure_times ++ [e] ∧
      e.get3 = message ∧
      (log_time message d w).g_measure_times.length = w.g_measure_times.length + 1 ∧
      (∀ i, i < w.g_measure_times.length →
        (log_time message d w).g_measure_times[i]? = w.g_measure_times[i]?) ∧
      (log_time message d w).cout = w.cout := by
  refine ⟨_, rfl, rfl, ?_, ?_, rfl⟩
  · simp [log_time]
  · intro i hi
    simp only [log_time]
    rw [List.getElem?_append_left hi]

/-! ## The text of the table -/

theorem spaces_length (n : Nat) : (spaces n).length = n := by
  simp [spaces, String.length]

theorem put_spaces_eq (rjust : Nat) : ∀ out : String, put_spaces rjust out = out ++ spaces rjust := by
  induction rjust with
  | zero =>
    intro out
    apply String.ext
    simp [put_spaces, spaces]
  | succ r ih =>
    intro out
    rw [put_spaces, ih]
    apply String.ext
    simp [spaces, List.replicate_succ]

/-- The text `sp_fill` adds does not depend on what was printed before. -/
theorem sp_fill_append (str : String) (rjust : Nat) (out : String) :
    sp_fill str rjust out = out ++ sp_fill str rjust "" := by
  simp only [sp_fill, put_spaces_eq, String.empty_append, String.append_assoc]

/-- When the width is at least the size of the string, the subtraction in `sp_fill` does not
wrap and the string is padded to exactly the width. -/
theorem sp_fill_padded (str : String) (rjust : Nat) (out : String)
    (hle : str.length ≤ rjust) (hlt : rjust < SIZE_MOD) :
    sp_fill str rjust out = out ++ padded_field str rjust := by
  have hM : SIZE_MOD = 18446744073709551616 := by decide
  have hm : Int.toNat (((rjust : Int) - (str.length : Int)) % (SIZE_MOD : Int))
      = rjust - str.length := by
    rw [hM] at hlt ⊢
    omega
  simp only [sp_fill, put_spaces_eq, hm, padded_field, String.append_assoc]

theorem padded_field_length (str : String) (width : Nat) (hle : str.length ≤ width) :
    (padded_field str width).length = width := by
  simp only [padded_field, String.length_append, spaces_length]
  omega

/-- The text `print_row` adds does not depend on what was printed before. -/
theorem print_row_append (l : Widths) (out : String) (e : Sample) :
    print_row l out e = out ++ print_row l "" e := by
  simp only [print_row]
  rw [sp_fill_append e.get0 l.w0 out]
  rw [sp_fill_append e.get1 l.w1 (out ++ sp_fill e.get0 l.w0 "" ++ " | ")]
  rw [sp_fill_append e.get2 l.w2
    (out ++ sp_fill e.get0 l.w0 "" ++ " | " ++ sp_fill e.get1 l.w1 "" ++ " | ")]
  rw [sp_fill_append e.get1 l.w1 (sp_fill e.get0 l.w0 "" ++ " | ")]
  rw [sp_fill_append e.get2 l.w2
    (sp_fill e.get0 l.w0 "" ++ " | " ++ sp_fill e.get1 l.w1 "" ++ " | ")]
  apply String.ext
  simp [String.data_push, String.data_append, List.append_assoc]

/-- The second loop prints the rows of the entries one after the other, in the order of the
log. -/
theorem foldl_print_row (l : Widths) (log : List Sample) :
    ∀ out : String,
      log.foldl (print_row l) out = out ++ join_rows (log.map (print_row l "")) := by
  induction log with
  | nil => intro out; simp [join_rows]
  | cons e es ih =>
    intro out
    rw [List.foldl_cons, ih, print_row_append l out e]
    simp only [List.map_cons, join_rows, String.append_assoc]

/-- Everything `pretty_print_log` prints: the header row, then the row of each entry. -/
theorem pretty_print_log_cout (w : World) :
    (pretty_print_log w).cout
      = w.cout ++ print_row (longest w.g_measure_times) "" headers
        ++ join_rows (w.g_measure_times.map (print_row (longest w.g_measure_times) "")) := by
  have h : (pretty_print_log w).cout
      = w.g_measure_times.foldl (print_row (longest w.g_measure_times))
          (print_row (longest w.g_measure_times) w.cout headers) := rfl
  rw [h, foldl_print_row, print_row_append]

/-! ## The column widths -/

theorem foldr_max_start (xs : List Nat) (a b : Nat) :
    xs.foldr max (max a b) = max b (xs.foldr max a) := by
  induction xs with
  | nil => simp [max_comm]
  | cons x xs ih => simp only [List.foldr_cons, ih, max_left_comm]

/-- The first loop, from any starting widths, in closed form. -/
theorem foldl_longest_step (log : List Sample) :
    ∀ init : Widths,
      log.foldl longest_step init
        = { w0 := (log.map (fun e => e.get0.length)).foldr max init.w0
            w1 := (log.map (fun e => e.get1.length)).foldr max init.w1
            w2 := (log.map (fun e => e.get2.length)).foldr max init.w2 } := by
  induction log with
  | nil => intro init; rfl
  | cons e es ih =>
    intro init
    rw [List.foldl_cons, ih]
    simp only [longest_step, List.map_cons, List.foldr_cons, foldr_max_start]

/-- The widths computed by the first loop are the column widths of the specification. -/
theorem longest_eq_column_width (log : List Sample) :
    longest log
      = { w0 := column_width headers.get0 (log.map Sample.get0)
          w1 := column_width headers.get1 (log.map Sample.get1)
          w2 := column_width headers.get2 (log.map Sample.get2) } := by
  unfold longest
  rw [foldl_longest_step]
  simp only [column_width, List.map_map]
  rfl

theorem header_le_column_width (header : String) (values : List String) :
    header.length ≤ column_width header values := by
  unfold column_width
  induction values with
  | nil => exact le_refl _
  | cons v vs ih =>
    simp only [List.map_cons, List.foldr_cons]
    exact le_trans ih (le_max_right _ _)

theorem value_le_column_width (header : String) (values : List String) :
    ∀ v ∈ values, v.length ≤ column_width header values := by
  unfold column_width
  induction values with
  | nil => intro v hv; simp at hv
  | cons x xs ih =>
    intro v hv
    simp only [List.map_cons, List.foldr_cons]
    rcases List.mem_cons.mp hv with h | h
    · rw [h]; exact le_max_left _ _
    · exact le_trans (ih v h) (le_max_right _ _)

/-- The column width is attained: it is the length of the header or of one of the values. -/
theorem column_width_attained (header : String) (values : List String) :
    column_width header values = header.length
      ∨ ∃ v ∈ values, column_width header values = v.length := by
  unfold column_width
  induction values with
  | nil => left; rfl
  | cons x xs ih =>
    simp only [List.map_cons, List.foldr_cons]
    rcases le_total x.length ((xs.map String.length).foldr max header.length) with h | h
    · rw [max_eq_right h]
      rcases ih with h1 | ⟨v, hv, h1⟩
      · left; exact h1
      · right; exact ⟨v, List.mem_cons_of_mem _ hv, h1⟩
    · rw [max_eq_left h]
      right
      exact ⟨x, List.mem_cons_self _ _, rfl⟩

theorem column_width_lt (header : String) (values : List String) (bound : Nat)
    (hh : header.length < bound) (hv : ∀ v ∈ values, v.length < bound) :
    column_width header values < bound := by
  rcases column_width_attained header values with h | ⟨v, hmem, h⟩
  · rw [h]; exact hh
  · rw [h]; exact hv v hmem

/-- The sizes of the three headers are below the modulus of `std::size_t`. -/
theorem headers_lt_SIZE_MOD :
    headers.get0.length < SIZE_MOD ∧ headers.get1.length < SIZE_MOD
      ∧ headers.get2.length < SIZE_MOD := by
  decide

/-- With every size below the modulus of `std::size_t`, a row printed with widths that bound
the sizes of its fields is the row of the specification. -/
theorem print_row_eq_table_row (l : Widths) (e : Sample)
    (h0 : e.get0.length ≤ l.w0) (h1 : e.get1.length ≤ l.w1) (h2 : e.get2.length ≤ l.w2)
    (b0 : l.w0 < SIZE_MOD) (b1 : l.w1 < SIZE_MOD) (b2 : l.w2 < SIZE_MOD) :
    print_row l "" e = table_row l e := by
  simp only [print_row, table_row, sp_fill_padded _ _ _ h0 b0, sp_fill_padded _ _ _ h1 b1,
    sp_fill_padded _ _ _ h2 b2]
  apply String.ext
  simp [String.data_push, String.data_append, List.append_assoc]

/-- C2: the widths used by `pretty_print_log` are, column by column, the maximum of the header
length and of the value lengths of the log; the header row and every sample row consist of the
three fields each followed by exactly `width - length` spaces, so each padded field is exactly
as long as its column, which is at least as wide as the header and as every value. -/
theorem pretty_print_log_pads_columns (w : World)
    (hsize : ∀ e ∈ w.g_measure_times,
      e.get0.length < SIZE_MOD ∧ e.get1.length < SIZE_MOD ∧ e.get2.length < SIZE_MOD) :
    longest w.g_measure_times
      = { w0 := column_width headers.get0 (w.g_measure_times.map Sample.get0)
          w1 := column_width headers.get1 (w.g_measure_times.map Sample.get1)
          w2 := column_width headers.get2 (w.g_measure_times.map Sample.get2) } ∧
    (pretty_print_log w).cout
      = w.cout ++ table_row (longest w.g_measure_times) headers
        ++ join_rows (w.g_measure_times.map (table_row (longest w.g_measure_times))) ∧
    (∀ e, e = headers ∨ e ∈ w.g_measure_times →
      e.get0.length ≤ (longest w.g_measure_times).w0 ∧
      e.get1.length ≤ (longest w.g_measure_times).w1 ∧
      e.get2.length ≤ (longest w.g_measure_times).w2 ∧
      (padded_field e.get0 (longest w.g_measure_times).w0).length
        = (longest w.g_measure_times).w0 ∧
      (padded_field e.get1 (longest w.g_measure_times).w1).length
        = (longest w.g_measure_times).w1 ∧
      (padded_field e.get2 (longest w.g_measure_times).w2).length
        = (longest w.g_measure_times).w2) := by
  have hl := longest_eq_column_width w.g_measure_times
  have hle : ∀ e, e = headers ∨ e ∈ w.g_measure_times →
      e.get0.length ≤ (longest w.g_measure_times).w0 ∧
      e.get1.length ≤ (longest w.g_measure_times).w1 ∧
      e.get2.length ≤ (longest w.g_measure_times).w2 := by
    intro e he
    rw [hl]
    rcases he with he | he
    · rw [he]
      exact ⟨header_le_column_width _ _, header_le_column_width _ _,
        header_le_column_width _ _⟩
    · exact ⟨value_le_column_width _ _ _ (List.mem_map_of_mem _ he),
        value_le_column_width _ _ _ (List.mem_map_of_mem _ he),
        value_le_column_width _ _ _ (List.mem_map_of_mem _ he)⟩
  have hb : (longest w.g_measure_times).w0 < SIZE_MOD ∧
      (longest w.g_measure_times).w1 < SIZE_MOD ∧
      (longest w.g_measure_times).w2 < SIZE_MOD := by
    rw [hl]
    refine ⟨column_width_lt _ _ _ headers_lt_SIZE_MOD.1 ?_,
      column_width_lt _ _ _ headers_lt_SIZE_MOD.2.1 ?_,
      column_width_lt _ _ _ headers_lt_SIZE_MOD.2.2 ?_⟩
    · intro v hv
      obtain ⟨e, he, rfl⟩ := List.mem_map.mp hv
      exact (hsize e he).1
    · intro v hv
      obtain ⟨e, he, rfl⟩ := List.mem_map.mp hv
      exact (hsize e he).2.1
    · intro v hv
      obtain ⟨e, he, rfl⟩ := List.mem_map.mp hv
      exact (hsize e he).2.2
  have hrow : ∀ e, e = headers ∨ e ∈ w.g_measure_times →
      print_row (longest w.g_measure_times) "" e = table_row (longest w.g_measure_times) e := by
    intro e he
    obtain ⟨a0, a1, a2⟩ := hle e he
    exact print_row_eq_table_row _ e a0 a1 a2 hb.1 hb.2.1 hb.2.2
  refine ⟨hl, ?_, ?_⟩
  · rw [pretty_print_log_cout, hrow headers (Or.inl rfl)]
    congr 1
    congr 1
    apply List.map_congr_left
    intro e he
    exact hrow e (Or.inr he)
  · intro e he
    obtain ⟨a0, a1, a2⟩ := hle e he
    exact ⟨a0, a1, a2, padded_field_length _ _ a0, padded_field_length _ _ a1,
      padded_field_length _ _ a2⟩

/-- C2 on a log of two samples: the widths are 14, 9 and 8 and the table is padded to them. -/
theorem pretty_print_log_pads_columns_witness :
    longest two_samples = { w0 := 14, w1 := 9, w2 := 8 } ∧
    (pretty_print_log { g_measure_times := two_samples, cout := "" }).cout
      = "time (ns)      | time (ms) | time (s) | message\n"
        ++ "5000000000     | 5000      | 5        | x\n"
        ++ "-1234567890123 | -1234567  | -1234    | a very long message\n" ∧
    (padded_field "5000" (longest two_samples).w1).length = 9 := by
  have h := pretty_print_log_pads_columns { g_measure_times := two_samples, cout := "" }
    (by decide)
  refine ⟨by decide, ?_, ?_⟩
  · rw [h.2.1]
    decide
  · decide

/-! ## Rows, order and the clearing of the log -/

/-- C3: for a log of `n` samples, `pretty_print_log` prints one header row and then `n` sample
rows; the row at position `i` is the one printed for the sample at position `i` of the log,
whatever the values are. -/
theorem pretty_print_log_rows_in_order (w : World) :
    ∃ rows : List String,
      (pretty_print_log w).cout
        = w.cout ++ print_row (longest w.g_measure_times) "" headers ++ join_rows rows ∧
      rows.length = w.g_measure_times.length ∧
      ∀ i : Nat, rows[i]?
        = (w.g_measure_times[i]?).map (print_row (longest w.g_measure_times) "") := by
  refine ⟨w.g_measure_times.map (print_row (longest w.g_measure_times) ""),
    pretty_print_log_cout w, List.length_map _ _, ?_⟩
  intro i
  exact List.getElem?_map _ _ _

/-- The number of samples after a sequence of `log_time` calls. -/
theorem log_times_length (calls : List (String × Duration)) :
    ∀ w : World,
      (log_times calls w).g_measure_times.length = w.g_measure_times.length + calls.length := by
  induction calls with
  | nil => intro w; rfl
  | cons c cs ih =>
    intro w
    have h : log_times (c :: cs) w = log_times cs (log_time c.1 c.2 w) := rfl
    rw [h, ih]
    simp [log_time]
    omega

/-- A sequence of `log_time` calls prints nothing. -/
theorem log_times_cout (calls : List (String × Duration)) :
    ∀ w : World, (log_times calls w).cout = w.cout := by
  induction calls with
  | nil => intro w; rfl
  | cons c cs ih =>
    intro w
    have h : log_times (c :: cs) w = log_times cs (log_time c.1 c.2 w) := rfl
    rw [h, ih]
    rfl

/-- C4: after any sequence of `log_time` calls, which leaves one sample in the log for each
call, one `pretty_print_log` call leaves the log empty. -/
theorem pretty_print_log_clears (calls : List (String × Duration)) (w : World) :
    (log_times calls w).g_measure_times.length = w.g_measure_times.length + calls.length ∧
    (pretty_print_log (log_times calls w)).g_measure_times = [] :=
  ⟨log_times_length calls w, rfl⟩

/-- C10: on an empty log `pretty_print_log` prints exactly the header row and a newline, after
whatever was printed before, and the log stays empty. -/
theorem pretty_print_log_empty (out : String) :
    pretty_print_log { g_measure_times := [], cout := out }
      = { g_measure_times := [],
          cout := out ++ "time (ns) | time (ms) | time (s) | message\n" } := by
  have h := pretty_print_log_cout { g_measure_times := [], cout := out }
  have hrow : print_row (longest []) "" headers
      = "time (ns) | time (ms) | time (s) | message\n" := by decide
  simp only [List.map_nil, join_rows, String.append_empty, hrow] at h
  have hlog : (pretty_print_log { g_measure_times := [], cout := out }).g_measure_times = [] :=
    rfl
  cases hp : pretty_print_log { g_measure_times := [], cout := out } with
  | mk log text =>
    rw [hp] at h hlog
    simp only at h hlog
    rw [h, hlog]

/-- The table of a log is its header row followed by the row of each sample. -/
theorem table_text_eq (log : List Sample) :
    table_text log
      = print_row (longest log) "" headers ++ join_rows (log.map (print_row (longest log) "")) := by
  unfold table_text
  rw [pretty_print_log_cout]
  simp only [String.empty_append]

/-- The whole effect of `pretty_print_log`: the table of the log is added to the output and the
log is emptied. -/
theorem pretty_print_log_eq (w : World) :
    pretty_print_log w
      = { g_measure_times := [], cout := w.cout ++ table_text w.g_measure_times } := by
  have h := pretty_print_log_cout w
  rw [String.append_assoc, ← table_text_eq] at h
  have hlog : (pretty_print_log w).g_measure_times = [] := rfl
  cases hp : pretty_print_log w with
  | mk log text =>
    rw [hp] at h hlog
    simp only at h hlog
    rw [h, hlog]

/-! ## The `SECTION` bracket -/

/-- One pass through the `SECTION` loop when the body does not `break`: the body runs once, the
increment runs once, and the second test of the condition ends the loop. -/
theorem SECTION_unroll (name : String) (body : LoopState → Completion × LoopState)
    (fuel : Nat) (w : World)
    (h : (body { s := true, world := w }).1 ≠ Completion.break_) :
    SECTION name body (fuel + 2) w
      = some (measure_section_t.dtor name
          (measure_section_t.ctor name (body { s := true, world := w }).2.world)) := by
  unfold SECTION
  cases hb : body { s := true, world := w } with
  | mk c st1 =>
    rw [hb] at h
    cases c with
    | break_ => exact absurd rfl h
    | normal => simp [for_loop, hb, SECTION_incr]
    | continue_ => simp [for_loop, hb, SECTION_incr]

/-- A body that leaves with `break` ends the `SECTION` loop before its increment. -/
theorem SECTION_break (name : String) (body : LoopState → Completion × LoopState)
    (fuel : Nat) (w : World)
    (h : (body { s := true, world := w }).1 = Completion.break_) :
    SECTION name body (fuel + 1) w = some (body { s := true, world := w }).2.world := by
  unfold SECTION
  cases hb : body { s := true, world := w } with
  | mk c st1 =>
    rw [hb] at h
    simp only at h
    subst h
    simp [for_loop, hb]

/-- What the temporary `measure_section_t(name)` does from construction to destruction. -/
theorem measure_section_t_effect (name : String) (w : World) :
    measure_section_t.dtor name (measure_section_t.ctor name w)
      = { g_measure_times := []
          cout := w.cout ++ "--- BEGIN " ++ name ++ " ---\n"
            ++ table_text w.g_measure_times ++ "--- END " ++ name ++ " ---\n" } := by
  unfold measure_section_t.dtor
  rw [pretty_print_log_eq]
  rfl

/-- C5, as stated, fails for a body that leaves the loop with `break`: the statement ends with
the world untouched, so the two samples are still in the log and nothing at all was printed, no
closing line either. -/
theorem SECTION_break_counterexample :
    SECTION "bench1" breaking_body 2 { g_measure_times := two_samples, cout := "" }
      = some { g_measure_times := two_samples, cout := "" } ∧
    two_samples ≠ [] := by
  exact ⟨by decide, by decide⟩

/-- C5 (amended): for every section name and every body that reaches the end of its iteration,
by normal completion or by `continue`, the section's action fires exactly once, right after the
body: the opening line is printed, the log as the body left it is rendered and cleared, and the
closing line is printed last. -/
theorem SECTION_fires_once (name : String) (body : LoopState → Completion × LoopState)
    (fuel : Nat) (w : World)
    (h : (body { s := true, world := w }).1 ≠ Completion.break_) :
    SECTION name body (fuel + 2) w
      = some
        { g_measure_times := []
          cout := (body { s := true, world := w }).2.world.cout
            ++ "--- BEGIN " ++ name ++ " ---\n"
            ++ table_text (body { s := true, world := w }).2.world.g_measure_times
            ++ "--- END " ++ name ++ " ---\n" } := by
  rw [SECTION_unroll name body fuel w h, measure_section_t_effect]

/-- C5 (amended) for a body that records one sample and leaves its iteration by `continue`. -/
theorem SECTION_fires_once_witness :
    SECTION "bench1" continuing_body 2 { g_measure_times := [], cout := "" }
      = some
        { g_measure_times := []
          cout := "--- BEGIN bench1 ---\n"
            ++ "time (ns)  | time (ms) | time (s) | message\n"
            ++ "2500000000 | 2500      | 2        | work\n"
            ++ "--- END bench1 ---\n" } := by
  rw [SECTION_fires_once "bench1" continuing_body 0 { g_measure_times := [], cout := "" }
    (by decide)]
  decide

/-- C6: for every section name and every body that only records samples, the statement
`SECTION(name) body` ends and adds to the output exactly the opening line, then the table of the
log (its header row and one row for each sample), then the closing line, and leaves the log
empty; with an empty log and no sample recorded the table is the header row alone. -/
theorem SECTION_output (name : String) (calls : List (String × Duration)) (fuel : Nat)
    (w : World) (out : String) :
    SECTION name (recording_body calls) (fuel + 2) w
      = some
        { g_measure_times := []
          cout := w.cout ++ "--- BEGIN " ++ name ++ " ---\n"
            ++ table_text (log_times calls w).g_measure_times
            ++ "--- END " ++ name ++ " ---\n" } ∧
    SECTION name (recording_body []) (fuel + 2) { g_measure_times := [], cout := out }
      = some
        { g_measure_times := []
          cout := out ++ "--- BEGIN " ++ name ++ " ---\n"
            ++ "time (ns) | time (ms) | time (s) | message\n"
            ++ "--- END " ++ name ++ " ---\n" } := by
  have hempty : table_text [] = "time (ns) | time (ms) | time (s) | message\n" := by decide
  constructor
  · rw [SECTION_unroll name (recording_body calls) fuel w
      (by simp [recording_body]), measure_section_t_effect]
    simp only [recording_body, log_times_cout]
  · rw [SECTION_unroll name (recording_body []) fuel { g_measure_times := [], cout := out }
      (by simp [recording_body]), measure_section_t_effect]
    simp only [recording_body, log_times, List.foldl_nil, hempty]

/-! ## The stopwatch -/

/-- Calls that are all `start()` leave the stop value alone and set the start value to the last
reading. -/
theorem run_without_stop (calls : List Call) :
    ∀ sw : stopwatch, (∀ c ∈ calls, c.isStop = false) →
      (sw.run calls).stop_ = sw.stop_ ∧ (sw.run calls).start_ = last_start sw.start_ calls := by
  induction calls with
  | nil => intro sw _; exact ⟨rfl, rfl⟩
  | cons c cs ih =>
    intro sw h
    have hc := h c (List.mem_cons_self _ _)
    have hcs : ∀ x ∈ cs, x.isStop = false := fun x hx => h x (List.mem_cons_of_mem _ hx)
    cases c with
    | stop now => simp [Call.isStop] at hc
    | start now =>
      have hrun : sw.run (Call.start now :: cs) = (sw.start now).run cs := rfl
      rw [hrun]
      obtain ⟨h1, h2⟩ := ih (sw.start now) hcs
      exact ⟨h1, h2⟩

/-- C7, as stated, fails after one `start()`: a stopwatch constructed at reading 100 and started
at reading 250, never stopped, reports `-150` ticks, not zero. -/
theorem ticks_without_stop_counterexample :
    ((stopwatch.create 100).run [Call.start 250]).ticks 1 1000000000
      = { count := -150, num := 1, den := 1000000000 } ∧
    (∀ c ∈ [Call.start 250], c.isStop = false) := by
  exact ⟨by decide, by decide⟩

/-- C7 (amended): on a stopwatch on which `stop()` was never called, `ticks()` is the clock
reading of the construction minus the reading of the last `start()`; it is the zero duration
when `start()` was not called either. -/
theorem ticks_without_stop (cnum cden : Nat) (t0 : Int) (calls : List Call)
    (h : ∀ c ∈ calls, c.isStop = false) :
    ((stopwatch.create t0).run calls).ticks cnum cden
      = { count := t0 - last_start t0 calls, num := cnum, den := cden } ∧
    (calls = [] → (((stopwatch.create t0).run calls).ticks cnum cden).count = 0) := by
  obtain ⟨h1, h2⟩ := run_without_stop calls (stopwatch.create t0) h
  constructor
  · simp only [stopwatch.ticks, h1, h2]
    rfl
  · intro hnil
    rw [hnil]
    simp [stopwatch.ticks, stopwatch.run, stopwatch.create]

/-- C7 (amended) on a stopwatch constructed at reading 100 and started at 250 and at 400. -/
theorem ticks_without_stop_witness :
    ((stopwatch.create 100).run [Call.start 250, Call.start 400]).ticks 1 1000000000
      = { count := 100 - last_start 100 [Call.start 250, Call.start 400],
          num := 1, den := 1000000000 } ∧
    ([Call.start 250, Call.start 400] = [] →
      (((stopwatch.create 100).run [Call.start 250, Call.start 400]).ticks
        1 1000000000).count = 0) :=
  ticks_without_stop 1 1000000000 100 [Call.start 250, Call.start 400] (by decide)

/-! ## The message column -/

/-- The widths of the first loop bound the sizes of the headers and of every entry. -/
theorem longest_bounds (log : List Sample) (e : Sample) (he : e = headers ∨ e ∈ log) :
    e.get0.length ≤ (longest log).w0 ∧ e.get1.length ≤ (longest log).w1
      ∧ e.get2.length ≤ (longest log).w2 := by
  rw [longest_eq_column_width]
  rcases he with he | he
  · rw [he]
    exact ⟨header_le_column_width _ _, header_le_column_width _ _,
      header_le_column_width _ _⟩
  · exact ⟨value_le_column_width _ _ _ (List.mem_map_of_mem _ he),
      value_le_column_width _ _ _ (List.mem_map_of_mem _ he),
      value_le_column_width _ _ _ (List.mem_map_of_mem _ he)⟩

/-- When every size fits in `std::size_t`, so do the widths of the first loop. -/
theorem longest_lt_SIZE_MOD (log : List Sample)
    (hsize : ∀ e ∈ log,
      e.get0.length < SIZE_MOD ∧ e.get1.length < SIZE_MOD ∧ e.get2.length < SIZE_MOD) :
    (longest log).w0 < SIZE_MOD ∧ (longest log).w1 < SIZE_MOD
      ∧ (longest log).w2 < SIZE_MOD := by
  rw [longest_eq_column_width]
  refine ⟨column_width_lt _ _ _ headers_lt_SIZE_MOD.1 ?_,
    column_width_lt _ _ _ headers_lt_SIZE_MOD.2.1 ?_,
    column_width_lt _ _ _ headers_lt_SIZE_MOD.2.2 ?_⟩
  · intro v hv
    obtain ⟨e, he, rfl⟩ := List.mem_map.mp hv
    exact (hsize e he).1
  · intro v hv
    obtain ⟨e, he, rfl⟩ := List.mem_map.mp hv
    exact (hsize e he).2.1
  · intro v hv
    obtain ⟨e, he, rfl⟩ := List.mem_map.mp hv
    exact (hsize e he).2.2

/-- The length of a row of the specification: the three widths, the three separators, the
message and the newline. -/
theorem table_row_length (l : Widths) (e : Sample)
    (h0 : e.get0.length ≤ l.w0) (h1 : e.get1.length ≤ l.w1) (h2 : e.get2.length ≤ l.w2) :
    (table_row l e).length = l.w0 + l.w1 + l.w2 + 9 + e.get3.length + 1 := by
  have s3 : (" | " : String).length = 3 := by decide
  have s1 : ("\n" : String).length = 1 := by decide
  simp only [table_row, String.length_append, padded_field_length _ _ h0,
    padded_field_length _ _ h1, padded_field_length _ _ h2, s3, s1]
  omega

/-- The widths of the first loop do not depend on the messages of the log. -/
theorem longest_ignores_messages (log : List Sample) (relabel : Sample → String) :
    longest (log.map (fun e => { e with get3 := relabel e })) = longest log := by
  rw [longest_eq_column_width, longest_eq_column_width]
  simp only [List.map_map]
  rfl

/-- C11: the message column is never padded. In the output of `pretty_print_log` every row,
the header row and each sample row, is the three padded fields each followed by the separator,
then the message verbatim and a single newline; the length of a row is the three widths plus
nine plus the length of its own message plus one, and the widths are the same whatever the
messages of the log are. -/
theorem pretty_print_log_message_unpadded (w : World) (relabel : Sample → String)
    (hsize : ∀ e ∈ w.g_measure_times,
      e.get0.length < SIZE_MOD ∧ e.get1.length < SIZE_MOD ∧ e.get2.length < SIZE_MOD) :
    (pretty_print_log w).cout
      = w.cout ++ print_row (longest w.g_measure_times) "" headers
        ++ join_rows (w.g_measure_times.map (print_row (longest w.g_measure_times) "")) ∧
    (∀ e, e = headers ∨ e ∈ w.g_measure_times →
      print_row (longest w.g_measure_times) "" e
        = padded_field e.get0 (longest w.g_measure_times).w0 ++ " | "
          ++ padded_field e.get1 (longest w.g_measure_times).w1 ++ " | "
          ++ padded_field e.get2 (longest w.g_measure_times).w2 ++ " | "
          ++ e.get3 ++ "\n" ∧
      (print_row (longest w.g_measure_times) "" e).length
        = (longest w.g_measure_times).w0 + (longest w.g_measure_times).w1
          + (longest w.g_measure_times).w2 + 9 + e.get3.length + 1) ∧
    longest (w.g_measure_times.map (fun e => { e with get3 := relabel e }))
      = longest w.g_measure_times := by
  have hb := longest_lt_SIZE_MOD w.g_measure_times hsize
  refine ⟨pretty_print_log_cout w, ?_, longest_ignores_messages _ _⟩
  intro e he
  obtain ⟨a0, a1, a2⟩ := longest_bounds w.g_measure_times e he
  have hrow := print_row_eq_table_row (longest w.g_measure_times) e a0 a1 a2 hb.1 hb.2.1 hb.2.2
  constructor
  · rw [hrow]
    rfl
  · rw [hrow]
    exact table_row_length _ e a0 a1 a2

/-- C11 on the log with the labels `x` and `a very long message`: the row of `x` ends right
after its label. -/
theorem pretty_print_log_message_unpadded_witness :
    (pretty_print_log { g_measure_times := two_samples, cout := "" }).cout
      = "time (ns)      | time (ms) | time (s) | message\n"
        ++ "5000000000     | 5000      | 5        | x\n"
        ++ "-1234567890123 | -1234567  | -1234    | a very long message\n" := by
  have h := pretty_print_log_message_unpadded { g_measure_times := two_samples, cout := "" }
    (fun _ => "") (by decide)
  rw [h.1]
  decide

/-! ## The padding never wraps -/

/-- A call of `sp_fill` whose width is at least the size of the string and fits in
`std::size_t`: the difference is not negative, the subtraction modulo `SIZE_MOD` gives the true
difference, and exactly that many spaces follow the string. -/
theorem sp_fill_exact (str : String) (rjust : Nat) (out : String)
    (hle : str.length ≤ rjust) (hlt : rjust < SIZE_MOD) :
    str.length ≤ rjust ∧
    Int.toNat (((rjust : Int) - (str.length : Int)) % (SIZE_MOD : Int)) = rjust - str.length ∧
    sp_fill str rjust out = out ++ str ++ spaces (rjust - str.length) := by
  have hM : SIZE_MOD = 18446744073709551616 := by decide
  refine ⟨hle, ?_, ?_⟩
  · rw [hM] at hlt ⊢
    omega
  · rw [sp_fill_padded str rjust out hle hlt, padded_field, String.append_assoc]

/-- In the model a width below the size of the string does wrap: with width 1 and size 3 the
loop would be asked for `2 ^ 64 - 2` spaces. -/
theorem size_t_difference_wraps :
    Int.toNat (((1 : Int) - (3 : Int)) % (SIZE_MOD : Int)) = 18446744073709551614 := by
  decide

/-- C14: every call of `sp_fill` made by `pretty_print_log`, for the headers and for each entry
of the log, has a width at least the size of the string it prints, so the subtraction in
`std::size_t` does not wrap and the call writes the string followed by exactly
`width - size` spaces. -/
theorem pretty_print_log_sp_fill_no_wrap (w : World) (out : String)
    (hsize : ∀ e ∈ w.g_measure_times,
      e.get0.length < SIZE_MOD ∧ e.get1.length < SIZE_MOD ∧ e.get2.length < SIZE_MOD) :
    ∀ e, e = headers ∨ e ∈ w.g_measure_times →
      (e.get0.length ≤ (longest w.g_measure_times).w0 ∧
        Int.toNat ((((longest w.g_measure_times).w0 : Int) - (e.get0.length : Int))
          % (SIZE_MOD : Int)) = (longest w.g_measure_times).w0 - e.get0.length ∧
        sp_fill e.get0 (longest w.g_measure_times).w0 out
          = out ++ e.get0 ++ spaces ((longest w.g_measure_times).w0 - e.get0.length)) ∧
      (e.get1.length ≤ (longest w.g_measure_times).w1 ∧
        Int.toNat ((((longest w.g_measure_times).w1 : Int) - (e.get1.length : Int))
          % (SIZE_MOD : Int)) = (longest w.g_measure_times).w1 - e.get1.length ∧
        sp_fill e.get1 (longest w.g_measure_times).w1 out
          = out ++ e.get1 ++ spaces ((longest w.g_measure_times).w1 - e.get1.length)) ∧
      (e.get2.length ≤ (longest w.g_measure_times).w2 ∧
        Int.toNat ((((longest w.g_measure_times).w2 : Int) - (e.get2.length : Int))
          % (SIZE_MOD : Int)) = (longest w.g_measure_times).w2 - e.get2.length ∧
        sp_fill e.get2 (longest w.g_measure_times).w2 out
          = out ++ e.get2 ++ spaces ((longest w.g_measure_times).w2 - e.get2.length)) := by
  intro e he
  have hb := longest_lt_SIZE_MOD w.g_measure_times hsize
  obtain ⟨a0, a1, a2⟩ := longest_bounds w.g_measure_times e he
  exact ⟨sp_fill_exact _ _ out a0 hb.1, sp_fill_exact _ _ out a1 hb.2.1,
    sp_fill_exact _ _ out a2 hb.2.2⟩

/-- C14 on the log of two samples, for the millisecond field `5000` in a column of width 9:
four spaces follow it. -/
theorem pretty_print_log_sp_fill_no_wrap_witness :
    (longest two_samples).w1 = 9 ∧
    sp_fill "5000" (longest two_samples).w1 "" = "5000     " := by
  have h := pretty_print_log_sp_fill_no_wrap { g_measure_times := two_samples, cout := "" } ""
    (by decide) { get0 := "5000000000", get1 := "5000", get2 := "5", get3 := "x" }
    (Or.inr (by decide))
  refine ⟨by decide, ?_⟩
  rw [h.2.1.2.2]
  decide

/-! ## Consecutive sections -/

/-- A sequence of `log_time` calls adds the sample of each call at the back, in order, and
prints nothing. -/
theorem log_times_eq (calls : List (String × Duration)) :
    ∀ w : World,
      log_times calls w
        = { g_measure_times := w.g_measure_times ++ calls.map sample_of, cout := w.cout } := by
  induction calls with
  | nil => intro w; simp [log_times]
  | cons c cs ih =>
    intro w
    have h : log_times (c :: cs) w = log_times cs (log_time c.1 c.2 w) := rfl
    rw [h, ih]
    simp [log_time, sample_of]

/-- C12: a `SECTION` whose body completes normally ends with an empty log, so a second
`SECTION` that follows it prints the table of exactly the samples recorded after the first one
closed, between the sections and in its own body, and none of the samples of the first. -/
theorem SECTION_no_leak (name1 name2 : String) (body1 : LoopState → Completion × LoopState)
    (between calls2 : List (String × Duration)) (fuel1 fuel2 : Nat) (w : World)
    (h : (body1 { s := true, world := w }).1 = Completion.normal) :
    ∃ w1 : World,
      SECTION name1 body1 (fuel1 + 2) w = some w1 ∧
      w1.g_measure_times = [] ∧
      SECTION name2 (recording_body calls2) (fuel2 + 2) (log_times between w1)
        = some
          { g_measure_times := []
            cout := w1.cout ++ "--- BEGIN " ++ name2 ++ " ---\n"
              ++ table_text ((between ++ calls2).map sample_of)
              ++ "--- END " ++ name2 ++ " ---\n" } := by
  have hnb : (body1 { s := true, world := w }).1 ≠ Completion.break_ := by
    rw [h]
    decide
  refine ⟨{ g_measure_times := []
            cout := (body1 { s := true, world := w }).2.world.cout
              ++ "--- BEGIN " ++ name1 ++ " ---\n"
              ++ table_text (body1 { s := true, world := w }).2.world.g_measure_times
              ++ "--- END " ++ name1 ++ " ---\n" }, ?_, rfl, ?_⟩
  · rw [SECTION_unroll name1 body1 fuel1 w hnb, measure_section_t_effect]
  · rw [SECTION_unroll name2 (recording_body calls2) fuel2 _ (by simp [recording_body]),
      measure_section_t_effect]
    simp only [recording_body, log_times_eq, List.nil_append, List.map_append]

/-- C12 for a first section that records one sample and a second one that records another. -/
theorem SECTION_no_leak_witness :
    ∃ w1 : World,
      SECTION "first" (recording_body [("a", positive_tick)]) 2
          { g_measure_times := [], cout := "" } = some w1 ∧
      w1.g_measure_times = [] ∧
      SECTION "second" (recording_body [("b", negative_tick)]) 2 (log_times [] w1)
        = some
          { g_measure_times := []
            cout := w1.cout ++ "--- BEGIN " ++ "second" ++ " ---\n"
              ++ table_text (([] ++ [("b", negative_tick)]).map sample_of)
              ++ "--- END " ++ "second" ++ " ---\n" } :=
  SECTION_no_leak "first" "second" (recording_body [("a", positive_tick)]) []
    [("b", negative_tick)] 0 0 { g_measure_times := [], cout := "" } (by decide)

/-! ## The stopwatch after `start()` and `stop()` calls -/

/-- After any sequence of calls the start value is the reading of the last `start()` and the
stop value the reading of the last `stop()`, each falling back to the value held before. -/
theorem run_fields (calls : List Call) :
    ∀ sw : stopwatch,
      (sw.run calls).start_ = last_start sw.start_ calls ∧
      (sw.run calls).stop_ = (last_stop calls).getD sw.stop_ := by
  induction calls with
  | nil => intro sw; exact ⟨rfl, rfl⟩
  | cons c cs ih =>
    intro sw
    cases c with
    | start now =>
      have hrun : sw.run (Call.start now :: cs) = (sw.start now).run cs := rfl
      rw [hrun]
      obtain ⟨h1, h2⟩ := ih (sw.start now)
      exact ⟨h1, h2⟩
    | stop now =>
      have hrun : sw.run (Call.stop now :: cs) = (sw.stop now).run cs := rfl
      rw [hrun]
      obtain ⟨h1, h2⟩ := ih (sw.stop now)
      refine ⟨h1, ?_⟩
      rw [h2]
      simp only [last_stop]
      cases last_stop cs with
      | none => rfl
      | some t => rfl

/-- A sequence with a `stop()` in it has a last `stop()`. -/
theorem last_stop_of_mem (calls : List Call) (h : ∃ c ∈ calls, c.isStop = true) :
    ∃ t, last_stop calls = some t := by
  induction calls with
  | nil =>
    obtain ⟨c, hc, _⟩ := h
    simp at hc
  | cons c cs ih =>
    cases c with
    | stop now =>
      simp only [last_stop]
      cases last_stop cs with
      | none => exact ⟨now, rfl⟩
      | some t => exact ⟨t, rfl⟩
    | start now =>
      obtain ⟨c, hc, hs⟩ := h
      rcases List.mem_cons.mp hc with h1 | h1
      · rw [h1] at hs
        simp [Call.isStop] at hs
      · simp only [last_stop]
        exact ih ⟨c, h1, hs⟩

/-- With readings that never decrease, a sequence that ends with a `stop()` has that call as its
last `stop()`, and its reading is not below the start value. -/
theorem last_start_le_last_stop (calls : List Call) :
    ∀ (t0 t : Int), List.Pairwise (fun a b => a ≤ b) (t0 :: calls.map Call.reading) →
      calls.getLast? = some (Call.stop t) →
      last_stop calls = some t ∧ last_start t0 calls ≤ t := by
  induction calls with
  | nil => intro t0 t _ h; simp at h
  | cons c cs ih =>
    intro t0 t hp hl
    cases cs with
    | nil =>
      simp only [List.getLast?_singleton, Option.some.injEq] at hl
      subst hl
      simp only [last_stop, last_start, true_and]
      have hle : t0 ≤ t := List.rel_of_pairwise_cons hp (by simp [Call.reading])
      exact hle
    | cons c1 cs1 =>
      have hl1 : (c1 :: cs1).getLast? = some (Call.stop t) := by
        rw [List.getLast?_cons_cons] at hl
        exact hl
      cases c with
      | start now =>
        have hp1 : List.Pairwise (fun a b => a ≤ b) (now :: (c1 :: cs1).map Call.reading) := by
          have := List.Pairwise.of_cons hp
          simpa [Call.reading] using this
        obtain ⟨k1, k2⟩ := ih now t hp1 hl1
        exact ⟨by simp only [last_stop]; exact k1, by simp only [last_start]; exact k2⟩
      | stop now =>
        have hp1 : List.Pairwise (fun a b => a ≤ b) (t0 :: (c1 :: cs1).map Call.reading) := by
          refine List.Pairwise.sublist ?_ hp
          simp only [List.map_cons]
          exact List.Sublist.cons₂ _ (List.sublist_cons_self _ _)
        obtain ⟨k1, k2⟩ := ih t0 t hp1 hl1
        refine ⟨?_, ?_⟩
        · rw [last_stop, k1]
        · rw [last_start]
          exact k2

/-- C13: after a sequence of `start()` and `stop()` calls with at least one `stop()`, `ticks()`
is the reading of the last `stop()` minus the reading of the last `start()`, or minus the
reading of the construction when `start()` was never called; when the readings never decrease
and the sequence ends with a `stop()`, so that the last `stop()` came after the last `start()`,
the result is not negative. -/
theorem ticks_last_stop_minus_last_start (cnum cden : Nat) (t0 : Int) (calls : List Call)
    (h : ∃ c ∈ calls, c.isStop = true) :
    ∃ tstop : Int,
      last_stop calls = some tstop ∧
      ((stopwatch.create t0).run calls).ticks cnum cden
        = { count := tstop - last_start t0 calls, num := cnum, den := cden } ∧
      ((∀ c ∈ calls, c.isStop = true) → last_start t0 calls = t0) ∧
      (List.Pairwise (fun a b => a ≤ b) (t0 :: calls.map Call.reading) →
        (∃ t, calls.getLast? = some (Call.stop t)) →
        0 ≤ tstop - last_start t0 calls) := by
  obtain ⟨tstop, hstop⟩ := last_stop_of_mem calls h
  obtain ⟨h1, h2⟩ := run_fields calls (stopwatch.create t0)
  refine ⟨tstop, hstop, ?_, ?_, ?_⟩
  · simp only [stopwatch.ticks, h1, h2, hstop]
    rfl
  · intro hall
    clear h hstop h1 h2
    induction calls with
    | nil => rfl
    | cons c cs ih =>
      have hc := hall c (List.mem_cons_self _ _)
      cases c with
      | start now => simp [Call.isStop] at hc
      | stop now =>
        rw [last_start]
        exact ih (fun x hx => hall x (List.mem_cons_of_mem _ hx))
  · intro hp ⟨t, hl⟩
    obtain ⟨k1, k2⟩ := last_start_le_last_stop calls t0 t hp hl
    rw [hstop] at k1
    have : tstop = t := Option.some.inj k1
    omega

/-- C13 on a stopwatch constructed at reading 100 and then started at 250, stopped at 300,
started at 400 and stopped at 450 and at 475. -/
theorem ticks_last_stop_minus_last_start_witness :
    ∃ tstop : Int,
      last_stop start_stop_calls = some tstop ∧
      ((stopwatch.create 100).run start_stop_calls).ticks 1 1000000000
        = { count := tstop - last_start 100 start_stop_calls, num := 1, den := 1000000000 } ∧
      ((∀ c ∈ start_stop_calls, c.isStop = true) → last_start 100 start_stop_calls = 100) ∧
      (List.Pairwise (fun a b => a ≤ b) (100 :: start_stop_calls.map Call.reading) →
        (∃ t, start_stop_calls.getLast? = some (Call.stop t)) →
        0 ≤ tstop - last_start 100 start_stop_calls) :=
  ticks_last_stop_minus_last_start 1 1000000000 100 start_stop_calls
    ⟨Call.stop 300, by decide, by decide⟩

/-- The values in the example above: the last `stop()` read 475, the last `start()` 400, and
`ticks()` is 75. -/
theorem start_stop_calls_ticks :
    last_stop start_stop_calls = some 475 ∧
    last_start 100 start_stop_calls = 400 ∧
    ((stopwatch.create 100).run start_stop_calls).ticks 1 1000000000
      = { count := 75, num := 1, den := 1000000000 } := by
  exact ⟨by decide, by decide, by decide⟩

/-! ## Chained truncation -/

/-- C16: for every stopwatch, the millisecond field of the sample that `log_time` records for
its `ticks()` is the decimal text of the count of its `to_ms()`; so is the field of the sample
recorded by `STOP_MEASURE`, for the stopwatch as `stop()` leaves it. -/
theorem STOP_MEASURE_ms_is_to_ms (cnum cden : Nat) (msg : String) (now : Int)
    (sw : stopwatch) (w : World) :
    (∃ e : Sample,
      (log_time msg (sw.ticks cnum cden) w).g_measure_times = w.g_measure_times ++ [e] ∧
      e.get1 = decimal (sw.to_ms cnum cden).count ∧
      parseInt e.get1 = some (sw.to_ms cnum cden).count) ∧
    (∃ e : Sample,
      (STOP_MEASURE cnum cden msg now (sw, w)).2.g_measure_times = w.g_measure_times ++ [e] ∧
      (STOP_MEASURE cnum cden msg now (sw, w)).1 = sw.stop now ∧
      e.get1 = decimal ((STOP_MEASURE cnum cden msg now (sw, w)).1.to_ms cnum cden).count ∧
      parseInt e.get1
        = some ((STOP_MEASURE cnum cden msg now (sw, w)).1.to_ms cnum cden).count ∧
      e.get3 = msg) := by
  constructor
  · exact ⟨_, rfl, rfl, parseInt_decimal _⟩
  · exact ⟨_, rfl, rfl, rfl, parseInt_decimal _, rfl⟩

end tiny_bench
